import Mathlib

/-!
Verification of the Knosi document-indexing server (ingestion pipeline,
chunking, extraction batching, progress hub and encoding fallback).

The Python sources are shallowly embedded: strings are `List Char`, byte
strings are `List Nat`, Python `int` cursors that may go negative are `Int`,
wall-clock time is `ℚ`, and the one unbounded `while` loop (`chunk_text`) is
embedded with explicit fuel, `none` standing for non-termination.
-/

namespace Knosi

open List

/-! ### Python string primitives

`pySliceIdx`, `pySlice`, `pyRfind`, `pyStrip` model the exact semantics of
CPython slicing, `str.rfind(sub, start, end)` and `str.strip()` (restricted
to the ASCII whitespace characters) for text as a `List Char`. -/

/-- Whitespace test used by Python `str.strip()` (ASCII fragment: space, tab,
newline, carriage return, vertical tab, form feed). -/
def pyIsSpace (c : Char) : Bool :=
  c = ' ' ∨ c = '\t' ∨ c = '\n' ∨ c = '\r' ∨ c = '\x0b' ∨ c = '\x0c'

/-- Characters of `t` that are not whitespace: the "non-whitespace content". -/
def filterNWS (t : List Char) : List Char :=
  t.filter (fun c => !pyIsSpace c)

/-- Python slice-boundary normalization for a sequence of length `n`:
a negative index counts from the end (clamped at 0), a nonnegative index is
clamped at `n`. -/
def pySliceIdx (n : Nat) (i : Int) : Nat :=
  if i < 0 then ((n : Int) + i).toNat else min i.toNat n

/-- Python slice `t[a:b]`. -/
def pySlice (t : List Char) (a b : Int) : List Char :=
  let a' := pySliceIdx t.length a
  let b' := pySliceIdx t.length b
  (t.drop a').take (b' - a')

/-- Does `sub` occur in `t` starting at index `i`? -/
def matchesAt (t sub : List Char) (i : Nat) : Bool :=
  (t.drop i).take sub.length = sub

/-- Scan candidate start positions from `i` down to `lo`, returning the
greatest one at which `sub` matches. -/
def rfindDown (t sub : List Char) (lo : Nat) : Nat → Option Nat
  | 0 => if lo = 0 ∧ matchesAt t sub 0 then some 0 else none
  | i + 1 =>
    if i + 1 < lo then none
    else if matchesAt t sub (i + 1) then some (i + 1)
    else rfindDown t sub lo i

/-- Python `t.rfind(sub, a, b)` with CPython's ADJUST_INDICES normalization:
start raised to at least 0 (negative counts from the end), end clamped to the
length; result is the greatest `i ≥ a'` with `i + len(sub) ≤ b'` at which
`sub` occurs, `-1` (here `none`) if there is none. -/
def pyRfind (t sub : List Char) (a b : Int) : Option Nat :=
  let n := t.length
  let a' : Nat := if a < 0 then ((n : Int) + a).toNat else a.toNat
  let b' : Nat := if b < 0 then ((n : Int) + b).toNat else min b.toNat n
  if sub.length ≤ b' ∧ a' + sub.length ≤ b' then rfindDown t sub a' (b' - sub.length)
  else none

/-- Python `t.rfind(sub, a, b)` as the `Int` the Python code compares with:
`-1` when there is no occurrence. -/
def pyRfindI (t sub : List Char) (a b : Int) : Int :=
  match pyRfind t sub a b with
  | some i => (i : Int)
  | none => -1

/-- Python `t.strip()`: drop leading and trailing whitespace. -/
def pyStrip (t : List Char) : List Char :=
  (t.dropWhile pyIsSpace).rdropWhile pyIsSpace

/-! ### The chunker (`chunk_text` in `server/api/utils/chunking.py`,
duplicated in `server/api/main.py`)

`nextEnd` computes the value of `end` for one iteration of the `while` loop:
the tentative end `start + chunk_size`, moved back to a paragraph break
(`"\n\n"`, cut included) when one lies past the midpoint, otherwise to the
first of the sentence separators `". ", ".\n", "? ", "!\n", "! "` (in that
order) whose last occurrence lies past the midpoint. -/

/-- Sentence separators searched by `chunk_text`, in source order. -/
def sentSeps : List (List Char) :=
  [['.', ' '], ['.', '\n'], ['?', ' '], ['!', '\n'], ['!', ' ']]

/-- One iteration's `end` value: boundary adjustment only when the tentative
end lies strictly before the end of the text. -/
def nextEnd (t : List Char) (S : Nat) (s : Int) : Int :=
  let n : Int := t.length
  let e0 : Int := s + S
  if e0 < n then
    let pb := pyRfindI t ['\n', '\n'] s e0
    if pb > s + (S / 2 : Nat) then pb + 2
    else
      match sentSeps.find? (fun sep => pyRfindI t sep s e0 > s + (S / 2 : Nat)) with
      | some sep => pyRfindI t sep s e0 + (sep.length : Int)
      | none => e0
  else e0

/-- The `while start < len(text)` loop of `chunk_text`, with explicit fuel:
`none` models non-termination of the Python loop.  Each iteration slices
`text[start:end]`, strips it, appends it when non-empty, and advances
`start = end - overlap`, breaking once `start >= len(text)`. -/
def chunkGo (t : List Char) (S O : Nat) : Nat → Int → Option (List (List Char))
  | 0, _ => none
  | fuel + 1, s =>
    if s < (t.length : Int) then
      let e := nextEnd t S s
      let c := pyStrip (pySlice t s e)
      let rest? : Option (List (List Char)) :=
        if (t.length : Int) ≤ e - O then some []
        else chunkGo t S O fuel (e - O)
      match rest? with
      | none => none
      | some rest => some (if c = [] then rest else c :: rest)
    else some []

/-- `chunk_text(text, chunk_size, overlap)`: empty text gives `[]`, text of
length at most `chunk_size` is returned whole, otherwise the loop runs with
fuel `len(text) + 1` (enough for every terminating run, since a terminating
loop advances the cursor at each iteration). -/
def chunk_textL (t : List Char) (S O : Nat) : Option (List (List Char)) :=
  if t = [] then some []
  else if t.length ≤ S then some [t]
  else chunkGo t S O (t.length + 1) 0

/-- String-level wrapper for `chunk_textL`. -/
def chunk_text (s : String) (S O : Nat) : Option (List String) :=
  (chunk_textL s.data S O).map (·.map List.asString)

/-! ### Basic facts about the string primitives -/

theorem filter_dropWhile_not (p : α → Bool) (l : List α) :
    (l.dropWhile p).filter (fun c => !p c) = l.filter (fun c => !p c) := by
  induction l with
  | nil => rfl
  | cons a l ih =>
    by_cases h : p a
    · simp [List.dropWhile_cons, h, ih]
    · simp [List.dropWhile_cons, h]

theorem filterNWS_dropWhile (l : List Char) :
    filterNWS (l.dropWhile pyIsSpace) = filterNWS l :=
  filter_dropWhile_not pyIsSpace l

theorem filterNWS_reverse (l : List Char) :
    filterNWS l.reverse = (filterNWS l).reverse := by
  simp [filterNWS, List.filter_reverse]

/-- Stripping does not change the non-whitespace content. -/
theorem filterNWS_pyStrip (t : List Char) :
    filterNWS (pyStrip t) = filterNWS t := by
  unfold pyStrip List.rdropWhile
  rw [filterNWS_reverse, filterNWS_dropWhile, filterNWS_reverse,
    List.reverse_reverse, filterNWS_dropWhile]

/-- A stripped string is a sublist of the original. -/
theorem pyStrip_sublist (t : List Char) : pyStrip t <+ t := by
  unfold pyStrip List.rdropWhile
  calc ((t.dropWhile pyIsSpace).reverse.dropWhile pyIsSpace).reverse
      <+ (t.dropWhile pyIsSpace).reverse.reverse := by
        exact (List.reverse_sublist).2 (List.dropWhile_sublist _)
    _ = t.dropWhile pyIsSpace := List.reverse_reverse _
    _ <+ t := List.dropWhile_sublist _

/-- The strip of `t` is empty exactly when `t` is all whitespace. -/
theorem pyStrip_eq_nil_iff (t : List Char) :
    pyStrip t = [] ↔ filterNWS t = [] := by
  constructor
  · intro h
    rw [← filterNWS_pyStrip, h]
    rfl
  · intro h
    have hall : ∀ c ∈ t, pyIsSpace c := by
      intro c hc
      by_contra hcs
      have : c ∈ filterNWS t := by
        simp [filterNWS, List.mem_filter, hc, hcs]
      simp [h] at this
    have : t.dropWhile pyIsSpace = [] := List.dropWhile_eq_nil_iff.2 hall
    simp [pyStrip, this, List.rdropWhile]

theorem filterNWS_sublist (t : List Char) : filterNWS t <+ t :=
  List.filter_sublist t

/-- A candidate returned by `rfindDown` is at most the scan start. -/
theorem rfindDown_le (t sub : List Char) (lo : Nat) :
    ∀ i j, rfindDown t sub lo i = some j → j ≤ i := by
  intro i
  induction i with
  | zero =>
    intro j h
    simp only [rfindDown] at h
    split at h
    · simp_all
    · simp_all
  | succ i ih =>
    intro j h
    simp only [rfindDown] at h
    split at h
    · simp_all
    · split at h
      · simp_all
      · exact Nat.le_succ_of_le (ih j h)

/-- An occurrence found by `pyRfind` ends no later than the (nonnegative)
requested end. -/
theorem pyRfind_some_le (t sub : List Char) (a b : Int) (i : Nat)
    (hb : 0 ≤ b) (h : pyRfind t sub a b = some i) :
    (i : Int) + sub.length ≤ b := by
  simp only [pyRfind] at h
  rw [if_neg (show ¬b < 0 by omega)] at h
  by_cases ha : a < 0
  · rw [if_pos ha] at h
    split at h
    · rename_i hg
      have hle := rfindDown_le t sub _ _ _ h
      omega
    · simp at h
  · rw [if_neg ha] at h
    split at h
    · rename_i hg
      have hle := rfindDown_le t sub _ _ _ h
      omega
    · simp at h

/-- With a negative start that still normalizes at or past the (clamped) end,
`pyRfind` finds nothing: the search range is empty. -/
theorem pyRfind_neg_start_none (t sub : List Char) (a b : Int)
    (ha : a < 0) (hb : 0 ≤ b) (hba : b ≤ (t.length : Int) + a)
    (hs : 1 ≤ sub.length) :
    pyRfind t sub a b = none := by
  simp only [pyRfind]
  rw [if_pos ha, if_neg (show ¬b < 0 by omega)]
  rw [if_neg]
  rintro ⟨h1, h2⟩
  omega

/-- When the result of `pyRfindI` exceeds a bound that is at least `-1`, the
underlying `pyRfind` really found an occurrence. -/
theorem pyRfindI_gt (t sub : List Char) (a b m : Int)
    (hm : -1 ≤ m) (h : m < pyRfindI t sub a b) :
    ∃ i : Nat, pyRfind t sub a b = some i ∧ m < (i : Int) := by
  unfold pyRfindI at h
  rcases hf : pyRfind t sub a b with _ | i
  · rw [hf] at h
    norm_num at h
    omega
  · rw [hf] at h
    exact ⟨i, rfl, h⟩

/-- `pyRfindI` of a found occurrence is the occurrence. -/
theorem pyRfindI_eq_of_some (t sub : List Char) (a b : Int) (i : Nat)
    (h : pyRfind t sub a b = some i) : pyRfindI t sub a b = i := by
  unfold pyRfindI
  rw [h]

/-! ### Bounds for one loop iteration of `chunk_text` -/

/-- Every sentence separator searched by `chunk_text` has two characters. -/
theorem sentSeps_length (sep : List Char) (h : sep ∈ sentSeps) :
    sep.length = 2 := by
  fin_cases h <;> rfl

/-- From a nonnegative cursor, the iteration's `end` is at least
`start + min chunkSize (chunkSize/2 + 3)`: either no boundary applies and
`end = start + chunkSize`, or a boundary past the midpoint was used. -/
theorem nextEnd_lb (t : List Char) (S : Nat) (s : Int) (_hs : 0 ≤ s) :
    s + (min S (S / 2 + 3) : Nat) ≤ nextEnd t S s := by
  simp only [nextEnd]
  split
  · split
    · rename_i hpb
      push_cast at hpb ⊢
      omega
    · split
      · rename_i sep hsep
        have hp := List.find?_some hsep
        have hmem := List.mem_of_find?_eq_some hsep
        have hlen : sep.length = 2 := sentSeps_length sep hmem
        simp only [decide_eq_true_eq] at hp
        push_cast at hp ⊢
        omega
      · push_cast
        omega
  · push_cast
    omega

/-- From a nonnegative cursor, the iteration's `end` is at most
`start + chunkSize`: a boundary only ever moves `end` backwards. -/
theorem nextEnd_ub (t : List Char) (S : Nat) (s : Int) (hs : 0 ≤ s) :
    nextEnd t S s ≤ s + S := by
  simp only [nextEnd]
  split
  · split
    · rename_i hpb
      obtain ⟨i, hf, hgt⟩ := pyRfindI_gt t ['\n', '\n'] s (s + S) _ (by omega) hpb
      have hub := pyRfind_some_le t ['\n', '\n'] s (s + S) i (by omega) hf
      rw [pyRfindI_eq_of_some t _ s (s + S) i hf]
      simp at hub
      omega
    · split
      · rename_i sep hsep
        have hp := List.find?_some hsep
        have hmem := List.mem_of_find?_eq_some hsep
        have hlen : sep.length = 2 := sentSeps_length sep hmem
        simp only [decide_eq_true_eq] at hp
        obtain ⟨i, hf, hgt⟩ := pyRfindI_gt t sep s (s + S) _ (by omega) hp
        have hub := pyRfind_some_le t sep s (s + S) i (by omega) hf
        rw [pyRfindI_eq_of_some t sep s (s + S) i hf]
        omega
      · omega
  · omega

/-- From a negative (but not too negative) cursor in a text longer than
`chunkSize`, no boundary is found (the normalized search range is empty) and
the iteration's `end` is exactly `start + chunkSize`. -/
theorem nextEnd_neg (t : List Char) (S : Nat) (s : Int)
    (hs : s < 0) (hmid : -1 ≤ s + (S / 2 : Nat)) (hsS : 0 ≤ s + S)
    (hSn : (S : Int) ≤ t.length) :
    nextEnd t S s = s + S := by
  have hrfI : ∀ sub : List Char, 1 ≤ sub.length → pyRfindI t sub s (s + S) = -1 := by
    intro sub h
    unfold pyRfindI
    rw [pyRfind_neg_start_none t sub s (s + S) hs hsS (by omega) h]
  simp only [nextEnd]
  split
  · split
    · rename_i hpb
      rw [hrfI ['\n', '\n'] (by decide)] at hpb
      omega
    · split
      · rename_i sep hsep
        exfalso
        have hp := List.find?_some hsep
        have hmem := List.mem_of_find?_eq_some hsep
        have hlen : sep.length = 2 := sentSeps_length sep hmem
        simp only [decide_eq_true_eq] at hp
        rw [hrfI sep (by omega)] at hp
        omega
      · rfl
  · rfl

/-! ### Termination and chunk shape -/

/-- With overlap below both `chunkSize` and `chunkSize/2 + 3`, every iteration
advances the cursor, so the loop terminates within `len - start` iterations. -/
theorem chunkGo_isSome (t : List Char) (S O : Nat) (hO : O < S)
    (hO2 : O ≤ S / 2 + 2) :
    ∀ (fuel : Nat) (s : Int), 0 ≤ s → s ≤ (t.length : Int) →
      (t.length : Int) - s < fuel → (chunkGo t S O fuel s).isSome := by
  intro fuel
  induction fuel with
  | zero =>
    intro s hs hsn hf
    omega
  | succ fuel ih =>
    intro s hs hsn hf
    simp only [chunkGo]
    by_cases hlt : s < (t.length : Int)
    · rw [if_pos hlt]
      have hlb := nextEnd_lb t S s hs
      by_cases hbr : (t.length : Int) ≤ nextEnd t S s - O
      · rw [if_pos hbr]
        simp
      · rw [if_neg hbr]
        have hrec := ih (nextEnd t S s - O) (by omega) (by omega) (by omega)
        obtain ⟨rest, hrest⟩ := Option.isSome_iff_exists.1 hrec
        rw [hrest]
        simp
    · rw [if_neg hlt]
      simp

/-- Every chunk the loop emits is a stripped, non-empty span; in particular it
contains a non-whitespace character. -/
theorem chunkGo_elems (t : List Char) (S O : Nat) :
    ∀ (fuel : Nat) (s : Int) (cs : List (List Char)),
      chunkGo t S O fuel s = some cs →
      ∀ c ∈ cs, c ≠ [] ∧ filterNWS c ≠ [] := by
  intro fuel
  induction fuel with
  | zero =>
    intro s cs h
    simp [chunkGo] at h
  | succ fuel ih =>
    intro s cs h
    have hone : ∀ rest : List (List Char),
        (∀ c ∈ rest, c ≠ [] ∧ filterNWS c ≠ []) →
        cs = (if pyStrip (pySlice t s (nextEnd t S s)) = [] then rest
          else pyStrip (pySlice t s (nextEnd t S s)) :: rest) →
        ∀ c ∈ cs, c ≠ [] ∧ filterNWS c ≠ [] := by
      intro rest hrest hcs c hc
      by_cases hstrip : pyStrip (pySlice t s (nextEnd t S s)) = []
      · rw [hcs, if_pos hstrip] at hc
        exact hrest c hc
      · rw [hcs, if_neg hstrip] at hc
        rcases List.mem_cons.1 hc with hc | hc
        · subst hc
          refine ⟨hstrip, ?_⟩
          rw [filterNWS_pyStrip]
          intro hnil
          exact hstrip ((pyStrip_eq_nil_iff _).2 hnil)
        · exact hrest c hc
    simp only [chunkGo] at h
    split at h
    · by_cases hbr : (t.length : Int) ≤ nextEnd t S s - O
      · rw [if_pos hbr] at h
        exact hone [] (by simp) (Option.some.inj h).symm
      · rw [if_neg hbr] at h
        rcases hrec : chunkGo t S O fuel (nextEnd t S s - O) with _ | rest
        · rw [hrec] at h
          simp at h
        · rw [hrec] at h
          exact hone rest (ih _ _ hrec) (Option.some.inj h).symm
    · obtain rfl : cs = [] := (Option.some.inj h).symm
      intro c hc
      simp at hc

/-! ### Claims C6 and C2 -/

/-- C6: `chunk_text` on the empty string returns the empty sequence, and for
every non-empty text of length at most `chunkSize` it returns exactly the
single-element sequence containing the whole text. -/
theorem C6_chunk_text_trivial_cases (S O : Nat) (t : List Char)
    (hlen : t.length ≤ S) :
    chunk_textL [] S O = some [] ∧ (t ≠ [] → chunk_textL t S O = some [t]) := by
  refine ⟨rfl, fun hne => ?_⟩
  unfold chunk_textL
  rw [if_neg hne, if_pos hlen]

/-- Witness for C6 at the empty string and at `"ab"` with `chunkSize = 3`. -/
theorem C6_chunk_text_trivial_cases_witness :
    chunk_textL [] 3 1 = some [] ∧ chunk_textL "ab".data 3 1 = some ["ab".data] :=
  ⟨(C6_chunk_text_trivial_cases 3 1 "ab".data (by decide)).1,
    (C6_chunk_text_trivial_cases 3 1 "ab".data (by decide)).2 (by decide)⟩

/-- Text on which the `chunk_text` loop never advances for `chunkSize = 10`,
`overlap = 8`: the paragraph break at index 6 pulls `end` back to 8 and
`start = end - overlap` returns to 0 forever, appending `"abcdef"` each time. -/
def loopText : List Char := "abcdef\n\nxxxxxxxxxxxx".data

/-- The `chunk_text` loop started at cursor 0 runs forever on `t`: no amount
of fuel makes it return. -/
def chunkLoopsForever (t : List Char) (S O : Nat) : Prop :=
  ∀ fuel : Nat, chunkGo t S O fuel 0 = none

theorem loopText_step (fuel : Nat) :
    chunkGo loopText 10 8 (fuel + 1) 0 =
      match chunkGo loopText 10 8 fuel 0 with
      | none => none
      | some rest => some ("abcdef".data :: rest) := by
  have h3 : (loopText.length : Int) = 20 := by decide
  have h1 : nextEnd loopText 10 0 = 8 := by decide
  have h2 : pyStrip (pySlice loopText 0 (8 : Int)) = "abcdef".data := by decide
  simp only [chunkGo, h3, h1]
  norm_num [h2]
  rcases chunkGo loopText 10 8 fuel 0 with _ | rest <;> simp

theorem loopText_loops : chunkLoopsForever loopText 10 8 := by
  intro fuel
  induction fuel with
  | zero => rfl
  | succ fuel ih => rw [loopText_step, ih]

/-- C2 counterexample: with `chunkSize = 10` and `overlap = 8` (which satisfy
`0 ≤ overlap < chunkSize`) the loop never terminates on `loopText`, because
the paragraph-boundary cut makes `end - overlap` equal to `start` again, so
the stated condition `overlap < chunkSize` does not guarantee progress. -/
theorem C2_counterexample :
    8 < 10 ∧ chunkLoopsForever loopText 10 8 ∧ chunk_textL loopText 10 8 = none := by
  refine ⟨by decide, loopText_loops, ?_⟩
  unfold chunk_textL
  rw [if_neg (by decide), if_neg (by decide)]
  exact loopText_loops (loopText.length + 1)

/-- C2 amended: `chunk_text(T, S, O)` terminates for every text `T` provided
`0 ≤ O < S` and additionally `O ≤ S/2 + 2` — a boundary cut can move `end`
back to as little as `start + S/2 + 3`, so this is exactly the bound that
keeps the cursor advancing (the default configuration `S = 4000`, `O = 200`
satisfies it); for larger overlaps the loop can fail to advance. -/
theorem C2_chunk_text_terminates (t : List Char) (S O : Nat) (hO : O < S)
    (hO2 : O ≤ S / 2 + 2) :
    ∃ cs, chunk_textL t S O = some cs := by
  unfold chunk_textL
  by_cases h0 : t = []
  · exact ⟨[], by rw [if_pos h0]⟩
  · rw [if_neg h0]
    by_cases h1 : t.length ≤ S
    · exact ⟨[t], by rw [if_pos h1]⟩
    · rw [if_neg h1]
      exact Option.isSome_iff_exists.1
        (chunkGo_isSome t S O hO hO2 (t.length + 1) 0 le_rfl (by omega) (by omega))

/-- Witness for the amended C2 on `loopText` with `overlap = 7 = 10/2 + 2`. -/
theorem C2_chunk_text_terminates_witness :
    (7 < 10 ∧ 7 ≤ 10 / 2 + 2) ∧ ∃ cs, chunk_textL loopText 10 7 = some cs :=
  ⟨by decide, C2_chunk_text_terminates loopText 10 7 (by decide) (by decide)⟩

/-! ### Slice and segment lemmas for the coverage proof -/

/-- A slice with nonnegative in-range start is a take of a drop. -/
theorem pySlice_eq (t : List Char) (a b : Int) (ha : 0 ≤ a)
    (han : a.toNat ≤ t.length) (hb : 0 ≤ b) :
    pySlice t a b = (t.drop a.toNat).take (min b.toNat t.length - a.toNat) := by
  simp only [pySlice, pySliceIdx]
  rw [if_neg (by omega), if_neg (by omega), min_eq_left han]

/-- A slice whose negative start normalizes at or past the clamped end is
empty. -/
theorem pySlice_neg_empty (t : List Char) (a b : Int) (ha : a < 0)
    (h0 : 0 ≤ (t.length : Int) + a) (hb : 0 ≤ b)
    (hba : b ≤ (t.length : Int) + a) :
    pySlice t a b = [] := by
  simp only [pySlice, pySliceIdx]
  rw [if_pos ha, if_neg (by omega)]
  have : min b.toNat t.length - ((t.length : Int) + a).toNat = 0 := by omega
  rw [this]
  exact List.take_zero _

/-- Splitting a suffix of `t` at a further position `e`. -/
theorem drop_eq_take_append (t : List Char) (f e : Nat) (h : f ≤ e) :
    t.drop f = (t.drop f).take (e - f) ++ t.drop e := by
  conv_lhs => rw [← List.take_append_drop (e - f) (t.drop f)]
  rw [List.drop_drop]
  congr 2
  omega

/-- The segment `[f, e)` of `t` is a drop of the segment `[s0, e)` when
`s0 ≤ f`. -/
theorem segment_drop (t : List Char) (s0 f e : Nat) (h : s0 ≤ f) :
    (t.drop f).take (e - f) = ((t.drop s0).take (e - s0)).drop (f - s0) := by
  rw [List.drop_take, List.drop_drop]
  have h1 : s0 + (f - s0) = f := by omega
  have h2 : e - s0 - (f - s0) = e - f := by omega
  rw [h1, h2]

/-- Non-whitespace content of an inner segment is a sublist of that of an
enclosing segment with the same right end. -/
theorem filter_segment_sublist (t : List Char) (s0 f e : Nat) (h : s0 ≤ f) :
    filterNWS ((t.drop f).take (e - f)) <+
      filterNWS ((t.drop s0).take (e - s0)) := by
  rw [segment_drop t s0 f e h]
  exact List.Sublist.filter _ (List.drop_sublist _ _)

/-- Coverage invariant for the `chunk_text` loop: if the loop terminates from
cursor `s` with frontier `f` (everything before `f` already covered), the
emitted chunks cover all non-whitespace content of `t` from `f` on.  The side
conditions delimit the states reachable from `(s, f) = (0, 0)`: the cursor
never falls below `f`, and a negative cursor only occurs for overlaps above
`chunkSize/2 + 3`, with the frontier already past `chunkSize/2 + 3`. -/
theorem chunkGo_covers (t : List Char) (S O : Nat) (hO : O < S)
    (hn : S < t.length) :
    ∀ (fuel : Nat) (s : Int) (f : Nat) (cs : List (List Char)),
      f ≤ t.length →
      s ≤ (f : Int) →
      (s < 0 → (S : Int) + 6 ≤ 2 * O ∧ ((S / 2 + 3 : Nat) : Int) ≤ (f : Int)) →
      (0 ≤ s ∨ ((S / 2 + 3 : Nat) : Int) - O ≤ s) →
      chunkGo t S O fuel s = some cs →
      filterNWS (t.drop f) <+ cs.flatten := by
  intro fuel
  induction fuel with
  | zero =>
    intro s f cs _ _ _ _ h
    simp [chunkGo] at h
  | succ fuel ih =>
    intro s f cs hfn hsf hneg hE h
    simp only [chunkGo] at h
    by_cases hlt : s < (t.length : Int)
    · rw [if_pos hlt] at h
      rcases le_or_lt 0 s with hs | hs
      · -- nonnegative cursor
        have hub := nextEnd_ub t S s hs
        have hlb := nextEnd_lb t S s hs
        set e : Int := nextEnd t S s with hedef
        have he0 : 0 ≤ e := by omega
        have hse : s < e := by omega
        set s0 : Nat := s.toNat with hs0def
        have hs0 : (s0 : Int) = s := Int.toNat_of_nonneg hs
        set e' : Nat := min e.toNat t.length with hepdef
        have hslice : pySlice t s e = (t.drop s0).take (e' - s0) := by
          rw [hs0def, hepdef]
          exact pySlice_eq t s e hs (by omega) he0
        -- both the break case and the recursive case produce a tail `rest`
        -- whose coverage starts from `e'` (when the chunk reaches past `f`)
        -- or from `f` itself (when the chunk ends before `f`)
        have hcompose : ∀ rest : List (List Char),
            ((f : Int) ≤ e → filterNWS (t.drop e') <+ rest.flatten) →
            (e < (f : Int) → filterNWS (t.drop f) <+ rest.flatten) →
            cs = (if pyStrip (pySlice t s e) = [] then rest
              else pyStrip (pySlice t s e) :: rest) →
            filterNWS (t.drop f) <+ cs.flatten := by
          intro rest hrest1 hrest2 hcs
          by_cases hef : (f : Int) ≤ e
          · have hrest := hrest1 hef
            have hfe' : f ≤ e' := by omega
            have hsplit := drop_eq_take_append t f e' hfe'
            have hpiece : filterNWS ((t.drop f).take (e' - f)) <+
                filterNWS (pySlice t s e) := by
              rw [hslice]
              exact filter_segment_sublist t s0 f e' (by omega)
            by_cases hstrip : pyStrip (pySlice t s e) = []
            · have hnil : filterNWS (pySlice t s e) = [] :=
                (pyStrip_eq_nil_iff _).1 hstrip
              have hpiece0 : filterNWS ((t.drop f).take (e' - f)) = [] := by
                rw [hnil] at hpiece
                exact List.sublist_nil.1 hpiece
              rw [hcs, if_pos hstrip, hsplit, filterNWS, List.filter_append,
                ← filterNWS, ← filterNWS, hpiece0, List.nil_append]
              exact hrest
            · have hpiece2 : filterNWS ((t.drop f).take (e' - f)) <+
                  pyStrip (pySlice t s e) := by
                calc filterNWS ((t.drop f).take (e' - f))
                    <+ filterNWS (pySlice t s e) := hpiece
                  _ = filterNWS (pyStrip (pySlice t s e)) :=
                      (filterNWS_pyStrip _).symm
                  _ <+ pyStrip (pySlice t s e) := filterNWS_sublist _
              rw [hcs, if_neg hstrip, List.flatten_cons, hsplit, filterNWS,
                List.filter_append, ← filterNWS, ← filterNWS]
              exact hpiece2.append hrest
          · push_neg at hef
            have hr := hrest2 hef
            by_cases hstrip : pyStrip (pySlice t s e) = []
            · rw [hcs, if_pos hstrip]
              exact hr
            · rw [hcs, if_neg hstrip, List.flatten_cons]
              exact hr.trans (List.sublist_append_right _ _)
        by_cases hbr : (t.length : Int) ≤ e - O
        · rw [if_pos hbr] at h
          refine hcompose [] (fun _ => ?_) (fun hef => absurd hef (by omega))
            (Option.some.inj h).symm
          have he'n : e' = t.length := by omega
          simp [he'n, List.drop_length, filterNWS]
        · rw [if_neg hbr] at h
          rcases hrec : chunkGo t S O fuel (e - O) with _ | rest
          · rw [hrec] at h
            simp at h
          · rw [hrec] at h
            refine hcompose rest (fun hef => ?_) (fun hef => ?_)
              (Option.some.inj h).symm
            · refine ih (e - O) e' rest (by omega) (by omega) ?_ (by omega) hrec
              intro hneg'
              constructor
              · omega
              · omega
            · refine ih (e - O) f rest hfn (by omega) ?_ (by omega) hrec
              intro hneg'
              constructor
              · omega
              · omega
      · -- negative cursor: the slice is empty, nothing is emitted, and the
        -- cursor moves up by chunkSize - overlap
        obtain ⟨h2O, hf3⟩ := hneg hs
        have hEr : ((S / 2 + 3 : Nat) : Int) - O ≤ s := by
          rcases hE with hE | hE
          · omega
          · exact hE
        have he : nextEnd t S s = s + S :=
          nextEnd_neg t S s hs (by omega) (by omega) (by omega)
        have hsl : pySlice t s (s + S) = [] :=
          pySlice_neg_empty t s (s + S) hs (by omega) (by omega) (by omega)
        rw [he, hsl] at h
        have hps : pyStrip ([] : List Char) = [] := rfl
        rw [if_neg (show ¬(t.length : Int) ≤ s + S - O by omega)] at h
        rcases hrec : chunkGo t S O fuel (s + S - O) with _ | rest
        · rw [hrec] at h
          simp at h
        · rw [hrec] at h
          have h' : some (if ([] : List Char) = [] then rest else [] :: rest) =
              some cs := h
          rw [if_pos rfl] at h'
          obtain rfl : cs = rest := (Option.some.inj h').symm
          refine ih (s + S - O) f _ hfn (by omega) ?_ (by omega) hrec
          intro hneg'
          exact ⟨h2O, hf3⟩
    · rw [if_neg hlt] at h
      obtain rfl : cs = [] := (Option.some.inj h).symm
      have hf : f = t.length := by omega
      subst hf
      simp [List.drop_length, filterNWS]

/-- C5 counterexample: on the whitespace-only text `" "` with `chunkSize = 5`
and `overlap = 1` (so `0 ≤ overlap < chunkSize`), `chunk_text` returns the
single chunk `" "`, which is empty after trimming — the single-chunk branch
returns the text untrimmed. -/
theorem C5_counterexample :
    chunk_textL [' '] 5 1 = some [[' ']] ∧ pyStrip [' '] = [] ∧ 1 < 5 :=
  ⟨rfl, rfl, by decide⟩

/-- C5 amended: for every text `T` that contains at least one non-whitespace
character (a whitespace-only `T` with `len(T) ≤ S` is returned whole as a
single chunk that trims to empty) and `0 ≤ O < S`: whenever `chunk_text`
returns, every returned chunk contains at least one non-whitespace character,
and the concatenation of the returned chunks covers all non-whitespace
content of `T` — the non-whitespace characters of `T`, in order, form a
sublist of the concatenation. -/
theorem C5_chunk_nonempty_and_coverage (t : List Char) (S O : Nat)
    (hO : O < S) (hnws : filterNWS t ≠ []) (cs : List (List Char))
    (h : chunk_textL t S O = some cs) :
    (∀ c ∈ cs, filterNWS c ≠ []) ∧ filterNWS t <+ cs.flatten := by
  unfold chunk_textL at h
  by_cases h0 : t = []
  · rw [if_pos h0] at h
    subst h0
    exact absurd rfl hnws
  · rw [if_neg h0] at h
    by_cases h1 : t.length ≤ S
    · rw [if_pos h1] at h
      obtain rfl : cs = [t] := (Option.some.inj h).symm
      refine ⟨?_, ?_⟩
      · intro c hc
        simp only [List.mem_singleton] at hc
        subst hc
        exact hnws
      · simpa using filterNWS_sublist t
    · rw [if_neg h1] at h
      refine ⟨fun c hc => (chunkGo_elems t S O _ _ _ h c hc).2, ?_⟩
      have hc := chunkGo_covers t S O hO (by omega) (t.length + 1) 0 0 cs
        (by omega) (by omega) (fun hh => absurd hh (by omega)) (Or.inl le_rfl) h
      simpa using hc

/-- Witness for the amended C5 on a concrete sentence-broken text. -/
theorem C5_chunk_nonempty_and_coverage_witness :
    (3 < 10 ∧ filterNWS "abc def. ghi jkl mno".data ≠ [] ∧
      chunk_textL "abc def. ghi jkl mno".data 10 3 =
        some ["abc def.".data, "f. ghi jkl".data, "jkl mno".data]) ∧
    (∀ c ∈ ["abc def.".data, "f. ghi jkl".data, "jkl mno".data],
      filterNWS c ≠ []) ∧
    filterNWS "abc def. ghi jkl mno".data <+
      ["abc def.".data, "f. ghi jkl".data, "jkl mno".data].flatten :=
  ⟨⟨by decide, by decide, by decide⟩,
    C5_chunk_nonempty_and_coverage "abc def. ghi jkl mno".data 10 3
      (by decide) (by decide) _ (by decide)⟩

/-! ### The progress hub (`server/api/utils/progress.py`)

`upload_progress` is a dict from upload id to an entry holding the current
status string, the filename, and the list of subscriber queues.  A queue is
modelled with its current items plus a flag saying whether `queue.put` raises
for it (the code guards each put with `try/except`). -/

/-- One item pushed to an SSE subscriber queue. -/
structure ProgressMsg where
  status : String
  filename : String
deriving DecidableEq

/-- A subscriber queue: its contents and whether a put into it fails. -/
structure SseQueue where
  items : List ProgressMsg
  failPut : Bool
deriving DecidableEq

/-- One entry of the `upload_progress` dict. -/
structure ProgressEntry where
  status : String
  filename : String
  queues : List SseQueue
deriving DecidableEq

/-- The `upload_progress` dict, as an association list. -/
def ProgressMap : Type := List (String × ProgressEntry)

/-- Dict lookup: `upload_progress[upload_id]` (first matching key). -/
def lookupEntry (m : ProgressMap) (k : String) : Option ProgressEntry :=
  (List.find? (fun kv => kv.1 = k) m).map (fun kv => kv.2)

/-- `await queue.put({...})` for one subscriber: fails when the queue is
marked failing, else appends the message. -/
def queuePut (q : SseQueue) (msg : ProgressMsg) : Except Unit SseQueue :=
  if q.failPut then Except.error () else Except.ok ⟨q.items ++ [msg], q.failPut⟩

/-- The `try/except` around each put in `send_progress`: a failure is logged
and the queue left as it was; it never propagates. -/
def queuePutCaught (q : SseQueue) (msg : ProgressMsg) : SseQueue :=
  match queuePut q msg with
  | Except.ok q2 => q2
  | Except.error _ => q

/-- `send_progress(upload_id, status)`: when the id is known, set the entry's
status and push `{status, filename}` to every registered queue, each put
individually guarded; an unknown id is a no-op (logged as a warning).  The
function is total: no failure escapes to the caller. -/
def send_progress (m : ProgressMap) (uploadId status : String) : ProgressMap :=
  match lookupEntry m uploadId with
  | some entry =>
    let msg : ProgressMsg := ⟨status, entry.filename⟩
    let entry2 : ProgressEntry := ⟨status, entry.filename,
      entry.queues.map (fun q => queuePutCaught q msg)⟩
    m.map (fun kv => if kv.1 = uploadId then (kv.1, entry2) else kv)
  | none => m

/-- Updating the entry under a present key is observed by lookup. -/
theorem lookupEntry_update (m : ProgressMap) (k : String) (e2 : ProgressEntry)
    (entry : ProgressEntry) (h : lookupEntry m k = some entry) :
    lookupEntry (m.map (fun kv => if kv.1 = k then (kv.1, e2) else kv)) k =
      some e2 := by
  induction m with
  | nil => simp [lookupEntry] at h
  | cons kv m ih =>
    by_cases hk : kv.1 = k
    · simp [lookupEntry, List.find?_cons, hk]
    · have h' : lookupEntry m k = some entry := by
        simpa [lookupEntry, List.find?_cons, hk] using h
      simpa [lookupEntry, List.find?_cons, hk] using ih h'

/-! ### The decode chain of `extract_text` for plain-text files
(`server/api/services/extraction.py`, text-family branch)

Bytes are `List Nat`.  `utf8Decode` is the strict UTF-8 decoder (rejecting
truncated sequences, stray continuations, overlongs, surrogates and code
points above U+10FFFF), `latin1Decode` maps each byte to the code point of
the same value and accepts everything, `cp1252Decode` uses the Windows-1252
table, whose five unassigned bytes make it fail. -/

/-- Strict UTF-8 decoding of a byte sequence to code points, `none` on any
invalid input (what Python `bytes.decode("utf-8")` raises on). -/
def utf8Decode : List Nat → Option (List Nat)
  | [] => some []
  | b :: rest =>
    if b < 0x80 then (utf8Decode rest).map (fun cps => b :: cps)
    else if b < 0xC2 then none
    else if b < 0xE0 then
      match rest with
      | c1 :: rest2 =>
        if 0x80 ≤ c1 ∧ c1 < 0xC0 then
          (utf8Decode rest2).map (fun cps => ((b - 0xC0) * 0x40 + (c1 - 0x80)) :: cps)
        else none
      | [] => none
    else if b < 0xF0 then
      match rest with
      | c1 :: c2 :: rest2 =>
        let lo := if b = 0xE0 then 0xA0 else 0x80
        let hi := if b = 0xED then 0xA0 else 0xC0
        if (lo ≤ c1 ∧ c1 < hi) ∧ (0x80 ≤ c2 ∧ c2 < 0xC0) then
          (utf8Decode rest2).map (fun cps =>
            ((b - 0xE0) * 0x1000 + (c1 - 0x80) * 0x40 + (c2 - 0x80)) :: cps)
        else none
      | _ => none
    else if b < 0xF5 then
      match rest with
      | c1 :: c2 :: c3 :: rest2 =>
        let lo := if b = 0xF0 then 0x90 else 0x80
        let hi := if b = 0xF4 then 0x90 else 0xC0
        if (lo ≤ c1 ∧ c1 < hi) ∧ (0x80 ≤ c2 ∧ c2 < 0xC0) ∧
            (0x80 ≤ c3 ∧ c3 < 0xC0) then
          (utf8Decode rest2).map (fun cps =>
            ((b - 0xF0) * 0x40000 + (c1 - 0x80) * 0x1000 +
              (c2 - 0x80) * 0x40 + (c3 - 0x80)) :: cps)
        else none
      | _ => none
    else none

/-- Latin-1 decoding: every byte is the code point of the same value; it
never fails. -/
def latin1Decode (bs : List Nat) : List Nat := bs

/-- Latin-1 decoding as a fallible decoder: it always succeeds. -/
def latin1DecodeOpt (bs : List Nat) : Option (List Nat) :=
  some (latin1Decode bs)

/-- The Windows-1252 value of one byte: the bytes 0x80–0x9F map through the
cp1252 table, five of them (0x81, 0x8D, 0x8F, 0x90, 0x9D) are unassigned and
make Python's `bytes.decode("cp1252")` raise. -/
def cp1252Byte (b : Nat) : Option Nat :=
  if b < 0x80 ∨ 0xA0 ≤ b then some b
  else match b with
    | 0x80 => some 0x20AC
    | 0x82 => some 0x201A
    | 0x83 => some 0x0192
    | 0x84 => some 0x201E
    | 0x85 => some 0x2026
    | 0x86 => some 0x2020
    | 0x87 => some 0x2021
    | 0x88 => some 0x02C6
    | 0x89 => some 0x2030
    | 0x8A => some 0x0160
    | 0x8B => some 0x2039
    | 0x8C => some 0x0152
    | 0x8E => some 0x017D
    | 0x91 => some 0x2018
    | 0x92 => some 0x2019
    | 0x93 => some 0x201C
    | 0x94 => some 0x201D
    | 0x95 => some 0x2022
    | 0x96 => some 0x2013
    | 0x97 => some 0x2014
    | 0x98 => some 0x02DC
    | 0x99 => some 0x2122
    | 0x9A => some 0x0161
    | 0x9B => some 0x203A
    | 0x9C => some 0x0153
    | 0x9E => some 0x017E
    | 0x9F => some 0x0178
    | _ => none

/-- Windows-1252 decoding of a byte sequence. -/
def cp1252Decode (bs : List Nat) : Option (List Nat) :=
  bs.mapM cp1252Byte

/-- Lossy UTF-8 decoding (`errors="replace"`): an invalid byte is replaced by
U+FFFD and skipped.  Provably unreachable in the decode chain (latin-1 always
succeeds first), so nothing downstream depends on its exact replacement
policy. -/
def utf8ReplaceDecode : List Nat → List Nat
  | [] => []
  | b :: rest => (if b < 0x80 then b else 0xFFFD) :: utf8ReplaceDecode rest

/-- Whitespace test of Python `bytes.strip()` (ASCII whitespace only). -/
def pyIsSpaceByte (b : Nat) : Bool :=
  b = 0x20 ∨ b = 0x09 ∨ b = 0x0A ∨ b = 0x0D ∨ b = 0x0B ∨ b = 0x0C

/-- Python `bytes.strip()`. -/
def pyStripBytes (bs : List Nat) : List Nat :=
  (bs.dropWhile pyIsSpaceByte).rdropWhile pyIsSpaceByte

/-- The error raised by the text-family branch of `extract_text` on an empty
file (HTTP 400, "File is empty"). -/
inductive PlainExtractErr
  | emptyFile
deriving DecidableEq

/-- The text-family branch of `extract_text`: reject empty content, then try
UTF-8, Latin-1, CP1252 in order, catching the decode error of each, and fall
back to lossy UTF-8. -/
def extract_text_plain (content : List Nat) :
    Except PlainExtractErr (List Nat) :=
  if content = [] ∨ pyStripBytes content = [] then
    Except.error PlainExtractErr.emptyFile
  else
    Except.ok (match utf8Decode content with
      | some s => s
      | none =>
        match latin1DecodeOpt content with
        | some s => s
        | none =>
          match cp1252Decode content with
          | some s => s
          | none => utf8ReplaceDecode content)

/-! ### Claims C9 and C10 -/

/-- C9: `send_progress` never fails its caller — each per-queue put is
individually caught.  Publishing to an unknown job id leaves the registry
untouched (a logged no-op); publishing to a known entry (with zero or more
subscribers) updates its status and delivers `{status, filename}` to every
queue whose put does not fail, regardless of how many other queues fail. -/
theorem C9_send_progress_isolation (m : ProgressMap) (uploadId status : String) :
    (lookupEntry m uploadId = none → send_progress m uploadId status = m) ∧
    (∀ entry, lookupEntry m uploadId = some entry →
      lookupEntry (send_progress m uploadId status) uploadId =
        some ⟨status, entry.filename,
          entry.queues.map (fun q => queuePutCaught q ⟨status, entry.filename⟩)⟩ ∧
      (∀ (i : Nat) (q : SseQueue), entry.queues[i]? = some q → q.failPut = false →
        (entry.queues.map (fun q => queuePutCaught q ⟨status, entry.filename⟩))[i]? =
          some ⟨q.items ++ [⟨status, entry.filename⟩], false⟩) ∧
      (entry.queues = [] →
        send_progress m uploadId status =
          m.map (fun kv => if kv.1 = uploadId then
            (kv.1, ⟨status, entry.filename, []⟩) else kv))) := by
  constructor
  · intro h
    unfold send_progress
    rw [h]
  · intro entry h
    refine ⟨?_, ?_, ?_⟩
    · unfold send_progress
      rw [h]
      exact lookupEntry_update m uploadId _ entry h
    · intro i q hq hfail
      rw [List.getElem?_map, hq]
      simp [queuePutCaught, queuePut, hfail]
    · intro hq
      unfold send_progress
      rw [h]
      simp only [hq, List.map_nil]

/-- Witness for C9: a registry with one known job having one healthy and one
failing queue, probed at the known and at an unknown id. -/
theorem C9_send_progress_isolation_witness :
    (lookupEntry [("job1", ⟨"s0", "f.md", [⟨[], false⟩, ⟨[], true⟩]⟩)] "nope" = none →
      send_progress [("job1", ⟨"s0", "f.md", [⟨[], false⟩, ⟨[], true⟩]⟩)] "nope" "s1" =
        [("job1", ⟨"s0", "f.md", [⟨[], false⟩, ⟨[], true⟩]⟩)]) ∧
    lookupEntry (send_progress [("job1", ⟨"s0", "f.md", [⟨[], false⟩, ⟨[], true⟩]⟩)]
        "job1" "s1") "job1" =
      some ⟨"s1", "f.md", [⟨[⟨"s1", "f.md"⟩], false⟩, ⟨[], true⟩]⟩ := by
  constructor
  · exact (C9_send_progress_isolation
      [("job1", ⟨"s0", "f.md", [⟨[], false⟩, ⟨[], true⟩]⟩)] "nope" "s1").1
  · exact ((C9_send_progress_isolation
      [("job1", ⟨"s0", "f.md", [⟨[], false⟩, ⟨[], true⟩]⟩)] "job1" "s1").2
      ⟨"s0", "f.md", [⟨[], false⟩, ⟨[], true⟩]⟩ rfl).1

/-- C10: for text-family bytes passing the non-empty check, the decode chain
never fails: Latin-1 accepts every byte sequence, so the result is the UTF-8
decoding when the bytes are valid UTF-8 and the Latin-1 decoding otherwise,
and the CP1252 attempt and the lossy-replacement fallback are unreachable. -/
theorem C10_decode_chain (content : List Nat)
    (h : pyStripBytes content ≠ []) :
    (∀ bs : List Nat, latin1DecodeOpt bs = some (latin1Decode bs)) ∧
    extract_text_plain content =
      Except.ok (match utf8Decode content with
        | some s => s
        | none => latin1Decode content) ∧
    (∀ s, utf8Decode content = some s → extract_text_plain content = Except.ok s) := by
  have hne : ¬(content = [] ∨ pyStripBytes content = []) := by
    rintro (rfl | hc)
    · exact h rfl
    · exact h hc
  refine ⟨fun bs => rfl, ?_, ?_⟩
  · unfold extract_text_plain
    rw [if_neg hne]
    rcases hu : utf8Decode content with _ | s
    · rfl
    · rfl
  · intro s hs
    unfold extract_text_plain
    rw [if_neg hne, hs]

/-- Witness for C10: the two-byte sequence `0xC3 0xA9` is valid UTF-8 (é),
while `0xFF 0x61` is not and falls back to Latin-1. -/
theorem C10_decode_chain_witness :
    extract_text_plain [0xC3, 0xA9] = Except.ok [0xE9] ∧
    extract_text_plain [0xFF, 0x61] = Except.ok (latin1Decode [0xFF, 0x61]) := by
  constructor
  · exact (C10_decode_chain [0xC3, 0xA9] (by decide)).2.2 [0xE9] (by decide)
  · have h := (C10_decode_chain [0xFF, 0x61] (by decide)).2.1
    rw [show utf8Decode [0xFF, 0x61] = none from by decide] at h
    exact h

/-! ### The upload pipeline (`upload_document` in `server/api/main.py`)

The database holds `Document` rows (id, filename, file_hash, file_size,
chunk_count) and `Chunk` rows (document_id, filename, chunk_index, content,
embedding).  The SHA-256 hash, the text extractor and the embedding model are
external collaborators, passed in as functions; `nextId` stands for the
autoincrement value the flush assigns to the new Document row.  Each
`session.commit()` appends the now-visible state to `commits`; `none` as the
overall result models the request hanging in a non-terminating
`chunk_text`. -/

/-- One row of the `documents` table. -/
structure DocRow where
  id : Nat
  filename : List Char
  file_hash : List Char
  file_size : Nat
  chunk_count : Nat
deriving DecidableEq

/-- One row of the `chunks` table (embedding vectors abstracted to integer
lists; their values are never inspected by the pipeline). -/
structure ChunkRow where
  document_id : Nat
  filename : List Char
  chunk_index : Nat
  content : List Char
  embedding : List Int
deriving DecidableEq

/-- A committed database state. -/
structure DbState where
  documents : List DocRow
  chunks : List ChunkRow
deriving DecidableEq

/-- Status field of the upload response. -/
inductive UploadStatus
  | unchanged
  | created
  | updated
deriving DecidableEq

/-- The upload response body (`chunkCount` is absent on the unchanged path). -/
structure UploadResp where
  filename : List Char
  chunkCount : Option Nat
  status : UploadStatus
deriving DecidableEq

/-- The `HTTPException`s `upload_document` can raise, by raise site. -/
inductive UploadErr
  | unsupportedType
  | fileTooLarge
  | multipleResults
  | extractionFailed
  | emptyText
deriving DecidableEq

/-- External-collaborator calls made during an upload. -/
inductive PipelineEvent
  | extractCall
  | embedCall
  | commitEvent
deriving DecidableEq

instance {ε α : Type} [DecidableEq ε] [DecidableEq α] :
    DecidableEq (Except ε α) := fun a b =>
  match a, b with
  | Except.error x, Except.error y =>
    if h : x = y then Decidable.isTrue (congrArg _ h)
    else Decidable.isFalse (fun hh => h (Except.error.inj hh))
  | Except.ok x, Except.ok y =>
    if h : x = y then Decidable.isTrue (congrArg _ h)
    else Decidable.isFalse (fun hh => h (Except.ok.inj hh))
  | Except.error _, Except.ok _ => Decidable.isFalse (fun hh => Except.noConfusion hh)
  | Except.ok _, Except.error _ => Decidable.isFalse (fun hh => Except.noConfusion hh)

/-- Everything one call of `upload_document` does: its response or error, the
sequence of committed states, the final state, and the calls it made. -/
structure UploadOutcome where
  result : Except UploadErr UploadResp
  commits : List DbState
  finalDb : DbState
  events : List PipelineEvent
deriving DecidableEq

/-- `SUPPORTED_EXTENSIONS` of `server/api/main.py` (no image formats). -/
def SUPPORTED_EXTENSIONS : List (List Char) :=
  [".pdf".data, ".md".data, ".txt".data, ".org".data, ".rst".data,
    ".html".data, ".htm".data, ".docx".data]

/-- Greatest index of a character in a list, `none` if absent. -/
def lastIdxOf (c : Char) (l : List Char) : Option Nat :=
  (l.reverse.indexOf? c).map (fun j => l.length - 1 - j)

/-- `PurePath(filename).suffix` of CPython: the last dot-suffix of the final
path component; empty when the last dot is leading or trailing or absent. -/
def pySuffix (filename : List Char) : List Char :=
  let name := (filename.splitOn '/').getLastD []
  match lastIdxOf '.' name with
  | some i => if 0 < i ∧ i < name.length - 1 then name.drop i else []
  | none => []

/-- Python `str.lower()` (ASCII range, which is all extensions use). -/
def pyLower (l : List Char) : List Char := l.map Char.toLower

/-- `get_embeddings`: empty input short-circuits to an empty output without
calling the model; otherwise one batched call to the model. -/
def get_embeddings (embedFn : List (List Char) → List (List Int))
    (texts : List (List Char)) : List (List Int) × List PipelineEvent :=
  if texts = [] then ([], []) else (embedFn texts, [PipelineEvent.embedCall])

/-- The indexing path of `upload_document` after the duplicate check: extract,
reject blank text, chunk, embed, delete the old Document and its Chunks and
commit when replacing, then insert the new Document row (id `nextId` from the
flush) and its Chunk rows and commit. -/
def uploadIndex (extractFn : List Nat → List Char → Except Unit (List Char))
    (embedFn : List (List Char) → List (List Int))
    (chunkSize chunkOverlap nextId : Nat) (db : DbState)
    (filename : List Char) (content : List Nat) (file_hash : List Char)
    (existing_doc : Option DocRow) : Option UploadOutcome :=
  match extractFn content filename with
  | Except.error _ =>
    some ⟨Except.error UploadErr.extractionFailed, [], db, [PipelineEvent.extractCall]⟩
  | Except.ok text =>
    if pyStrip text = [] then
      some ⟨Except.error UploadErr.emptyText, [], db, [PipelineEvent.extractCall]⟩
    else
      match chunk_textL text chunkSize chunkOverlap with
      | none => none
      | some chunks =>
        let embedRes := get_embeddings embedFn chunks
        let db1 : DbState :=
          match existing_doc with
          | some old =>
            ⟨db.documents.filter (fun d => d.id ≠ old.id),
              db.chunks.filter (fun c => c.document_id ≠ old.id)⟩
          | none => db
        let commits1 : List DbState :=
          match existing_doc with
          | some _ => [db1]
          | none => []
        let doc : DocRow := ⟨nextId, filename, file_hash, content.length, chunks.length⟩
        let rows : List ChunkRow := (chunks.zip embedRes.1).enum.map
          (fun p => ⟨nextId, filename, p.1, p.2.1, p.2.2⟩)
        let db2 : DbState := ⟨db1.documents ++ [doc], db1.chunks ++ rows⟩
        some ⟨Except.ok ⟨filename, some chunks.length,
            match existing_doc with
            | some _ => UploadStatus.updated
            | none => UploadStatus.created⟩,
          commits1 ++ [db2], db2,
          [PipelineEvent.extractCall] ++ embedRes.2 ++
            commits1.map (fun _ => PipelineEvent.commitEvent) ++
            [PipelineEvent.commitEvent]⟩

/-- `upload_document`: extension check, size check, hash computation, lookup
by identity key (`scalar_one_or_none` raises on more than one row), the
unchanged short-circuit when the stored hash equals the new one, then the
indexing path. -/
def uploadDocument (hashFn : List Nat → List Char)
    (extractFn : List Nat → List Char → Except Unit (List Char))
    (embedFn : List (List Char) → List (List Int))
    (maxSizeMb chunkSize chunkOverlap nextId : Nat) (db : DbState)
    (filename : List Char) (content : List Nat) : Option UploadOutcome :=
  if pyLower (pySuffix filename) ∉ SUPPORTED_EXTENSIONS then
    some ⟨Except.error UploadErr.unsupportedType, [], db, []⟩
  else if maxSizeMb * 1024 * 1024 < content.length then
    some ⟨Except.error UploadErr.fileTooLarge, [], db, []⟩
  else
    let file_hash := hashFn content
    let matchRows := db.documents.filter (fun d => d.filename = filename)
    if 2 ≤ matchRows.length then
      some ⟨Except.error UploadErr.multipleResults, [], db, []⟩
    else
      match matchRows.head? with
      | some d =>
        if d.file_hash = file_hash then
          some ⟨Except.ok ⟨filename, none, UploadStatus.unchanged⟩, [], db, []⟩
        else
          uploadIndex extractFn embedFn chunkSize chunkOverlap nextId db
            filename content file_hash (some d)
      | none =>
        uploadIndex extractFn embedFn chunkSize chunkOverlap nextId db
          filename content file_hash none

/-- Referential integrity of a database state: every Chunk belongs to a
present Document, and every Document's stored `chunk_count` equals the number
of its Chunk rows. -/
def consistent (db : DbState) : Prop :=
  (∀ c ∈ db.chunks, ∃ d ∈ db.documents, d.id = c.document_id) ∧
  (∀ d ∈ db.documents,
    (db.chunks.filter (fun c => c.document_id = d.id)).length = d.chunk_count)

/-- The state committed by the delete transaction of a replacement: the old
Document row and all its Chunks are gone. -/
def dbMid (db : DbState) (old : DocRow) : DbState :=
  ⟨db.documents.filter (fun d => d.id ≠ old.id),
    db.chunks.filter (fun c => c.document_id ≠ old.id)⟩

/-- The Chunk rows inserted for the new Document version. -/
def newRows (embedFn : List (List Char) → List (List Int)) (nextId : Nat)
    (filename : List Char) (chunks : List (List Char)) : List ChunkRow :=
  (chunks.zip (get_embeddings embedFn chunks).1).enum.map
    (fun p => ⟨nextId, filename, p.1, p.2.1, p.2.2⟩)

/-- The outcome of a successful replacement run (existing Document with a
different hash): two commits, the first being the delete-only state. -/
def replaceOutcome (embedFn : List (List Char) → List (List Int))
    (nextId : Nat) (db : DbState) (filename : List Char) (content : List Nat)
    (file_hash : List Char) (old : DocRow) (chunks : List (List Char)) :
    UploadOutcome :=
  let db2 : DbState :=
    ⟨(dbMid db old).documents ++ [⟨nextId, filename, file_hash, content.length, chunks.length⟩],
      (dbMid db old).chunks ++ newRows embedFn nextId filename chunks⟩
  ⟨Except.ok ⟨filename, some chunks.length, UploadStatus.updated⟩,
    [dbMid db old, db2], db2,
    [PipelineEvent.extractCall] ++ (get_embeddings embedFn chunks).2 ++
      [PipelineEvent.commitEvent] ++ [PipelineEvent.commitEvent]⟩

/-- The outcome of a successful first ingestion (no existing Document): one
commit inserting the Document and its Chunks. -/
def createOutcome (embedFn : List (List Char) → List (List Int))
    (nextId : Nat) (db : DbState) (filename : List Char) (content : List Nat)
    (file_hash : List Char) (chunks : List (List Char)) : UploadOutcome :=
  let db2 : DbState :=
    ⟨db.documents ++ [⟨nextId, filename, file_hash, content.length, chunks.length⟩],
      db.chunks ++ newRows embedFn nextId filename chunks⟩
  ⟨Except.ok ⟨filename, some chunks.length, UploadStatus.created⟩,
    [db2], db2,
    [PipelineEvent.extractCall] ++ (get_embeddings embedFn chunks).2 ++
      ([] : List PipelineEvent) ++ [PipelineEvent.commitEvent]⟩

theorem uploadIndex_replace (extractFn : List Nat → List Char → Except Unit (List Char))
    (embedFn : List (List Char) → List (List Int))
    (chunkSize chunkOverlap nextId : Nat) (db : DbState)
    (filename : List Char) (content : List Nat) (file_hash : List Char)
    (old : DocRow) (text : List Char) (chunks : List (List Char))
    (hex : extractFn content filename = Except.ok text)
    (hblank : ¬pyStrip text = [])
    (hchunk : chunk_textL text chunkSize chunkOverlap = some chunks) :
    uploadIndex extractFn embedFn chunkSize chunkOverlap nextId db filename
        content file_hash (some old) =
      some (replaceOutcome embedFn nextId db filename content file_hash old chunks) := by
  unfold uploadIndex
  rw [hex]
  dsimp only
  rw [if_neg hblank, hchunk]
  rfl

theorem uploadIndex_create (extractFn : List Nat → List Char → Except Unit (List Char))
    (embedFn : List (List Char) → List (List Int))
    (chunkSize chunkOverlap nextId : Nat) (db : DbState)
    (filename : List Char) (content : List Nat) (file_hash : List Char)
    (text : List Char) (chunks : List (List Char))
    (hex : extractFn content filename = Except.ok text)
    (hblank : ¬pyStrip text = [])
    (hchunk : chunk_textL text chunkSize chunkOverlap = some chunks) :
    uploadIndex extractFn embedFn chunkSize chunkOverlap nextId db filename
        content file_hash none =
      some (createOutcome embedFn nextId db filename content file_hash chunks) := by
  unfold uploadIndex
  rw [hex]
  dsimp only
  rw [if_neg hblank, hchunk]
  rfl

/-- Dispatch of `upload_document` to the replacement path. -/
theorem uploadDocument_replace (hashFn : List Nat → List Char)
    (extractFn : List Nat → List Char → Except Unit (List Char))
    (embedFn : List (List Char) → List (List Int))
    (maxSizeMb chunkSize chunkOverlap nextId : Nat) (db : DbState)
    (filename : List Char) (content : List Nat) (old : DocRow)
    (hext : pyLower (pySuffix filename) ∈ SUPPORTED_EXTENSIONS)
    (hsize : content.length ≤ maxSizeMb * 1024 * 1024)
    (hfind : db.documents.filter (fun d => d.filename = filename) = [old])
    (hdiff : ¬old.file_hash = hashFn content) :
    uploadDocument hashFn extractFn embedFn maxSizeMb chunkSize chunkOverlap
        nextId db filename content =
      uploadIndex extractFn embedFn chunkSize chunkOverlap nextId db filename
        content (hashFn content) (some old) := by
  unfold uploadDocument
  rw [if_neg (by simp [hext]), if_neg (by omega), hfind]
  norm_num
  exact fun h => absurd h hdiff

/-- Dispatch of `upload_document` to the first-ingestion path. -/
theorem uploadDocument_create (hashFn : List Nat → List Char)
    (extractFn : List Nat → List Char → Except Unit (List Char))
    (embedFn : List (List Char) → List (List Int))
    (maxSizeMb chunkSize chunkOverlap nextId : Nat) (db : DbState)
    (filename : List Char) (content : List Nat)
    (hext : pyLower (pySuffix filename) ∈ SUPPORTED_EXTENSIONS)
    (hsize : content.length ≤ maxSizeMb * 1024 * 1024)
    (hfind : db.documents.filter (fun d => d.filename = filename) = []) :
    uploadDocument hashFn extractFn embedFn maxSizeMb chunkSize chunkOverlap
        nextId db filename content =
      uploadIndex extractFn embedFn chunkSize chunkOverlap nextId db filename
        content (hashFn content) none := by
  unfold uploadDocument
  rw [if_neg (by simp [hext]), if_neg (by omega), hfind]
  norm_num

/-! ### List facts used for the database claims -/

theorem filter_ne_then_eq (l : List ChunkRow) (i : Nat) :
    (l.filter (fun c => c.document_id ≠ i)).filter (fun c => c.document_id = i) = [] := by
  simp only [List.filter_filter]
  rw [List.filter_eq_nil_iff]
  intro c _
  by_cases h : c.document_id = i <;> simp [h]

theorem filter_ne_of_filter_eq (l : List ChunkRow) (i j : Nat) (h : ¬j = i) :
    (l.filter (fun c => c.document_id ≠ i)).filter (fun c => c.document_id = j) =
      l.filter (fun c => c.document_id = j) := by
  simp only [List.filter_filter]
  apply List.filter_congr
  intro c _
  by_cases hj : c.document_id = j
  · have hi : ¬c.document_id = i := by rw [hj]; exact h
    simp [hj, hi, h]
  · simp [hj]

theorem docs_filter_comm (l : List DocRow) (i : Nat) (fn : List Char) :
    (l.filter (fun d => d.id ≠ i)).filter (fun d => d.filename = fn) =
      (l.filter (fun d => d.filename = fn)).filter (fun d => d.id ≠ i) := by
  simp only [List.filter_filter]
  apply List.filter_congr
  intro d _
  exact Bool.and_comm _ _

theorem newRows_length (embedFn : List (List Char) → List (List Int))
    (nextId : Nat) (filename : List Char) (chunks : List (List Char))
    (hemb : (embedFn chunks).length = chunks.length) :
    (newRows embedFn nextId filename chunks).length = chunks.length := by
  unfold newRows get_embeddings
  by_cases h : chunks = [] <;> simp [h, hemb]

theorem newRows_docId (embedFn : List (List Char) → List (List Int))
    (nextId : Nat) (filename : List Char) (chunks : List (List Char)) :
    ∀ r ∈ newRows embedFn nextId filename chunks, r.document_id = nextId := by
  intro r hr
  unfold newRows at hr
  simp only [List.mem_map] at hr
  obtain ⟨p, _, rfl⟩ := hr
  rfl

theorem newRows_indices (embedFn : List (List Char) → List (List Int))
    (nextId : Nat) (filename : List Char) (chunks : List (List Char))
    (hemb : (embedFn chunks).length = chunks.length) :
    (newRows embedFn nextId filename chunks).map (fun c => c.chunk_index) =
      List.range chunks.length := by
  unfold newRows
  rw [List.map_map]
  have h1 : ((fun c : ChunkRow => c.chunk_index) ∘
      (fun p : Nat × (List Char × List Int) =>
        (⟨nextId, filename, p.1, p.2.1, p.2.2⟩ : ChunkRow))) =
      Prod.fst := rfl
  rw [h1, List.enum_map_fst, List.length_zip]
  unfold get_embeddings
  by_cases h : chunks = [] <;> simp [h, hemb]

/-! ### Claims C1, C3 and C4 -/

/-- C1: when a Document with the same identity key already exists and its
stored hash equals the hash of the uploaded bytes (the upload passing the
extension and size validations), `upload_document` returns status `unchanged`
with no extraction call, no embedding call and no commit, and the database is
exactly as before; consequently, after a successful first ingestion of some
bytes, uploading the identical bytes again under the same key returns
`unchanged` on the second call. -/
theorem C1_upload_unchanged_idempotent (hashFn : List Nat → List Char)
    (extractFn : List Nat → List Char → Except Unit (List Char))
    (embedFn : List (List Char) → List (List Int))
    (maxSizeMb chunkSize chunkOverlap nextId : Nat) (db : DbState)
    (filename : List Char) (content : List Nat)
    (hext : pyLower (pySuffix filename) ∈ SUPPORTED_EXTENSIONS)
    (hsize : content.length ≤ maxSizeMb * 1024 * 1024) :
    (∀ d : DocRow,
      db.documents.filter (fun dd => dd.filename = filename) = [d] →
      d.file_hash = hashFn content →
      uploadDocument hashFn extractFn embedFn maxSizeMb chunkSize chunkOverlap
          nextId db filename content =
        some ⟨Except.ok ⟨filename, none, UploadStatus.unchanged⟩, [], db, []⟩) ∧
    (∀ (text : List Char) (chunks : List (List Char)) (nextId2 : Nat),
      db.documents.filter (fun dd => dd.filename = filename) = [] →
      extractFn content filename = Except.ok text →
      ¬pyStrip text = [] →
      chunk_textL text chunkSize chunkOverlap = some chunks →
      ∃ out, uploadDocument hashFn extractFn embedFn maxSizeMb chunkSize
          chunkOverlap nextId db filename content = some out ∧
        out.result = Except.ok ⟨filename, some chunks.length, UploadStatus.created⟩ ∧
        uploadDocument hashFn extractFn embedFn maxSizeMb chunkSize chunkOverlap
            nextId2 out.finalDb filename content =
          some ⟨Except.ok ⟨filename, none, UploadStatus.unchanged⟩, [],
            out.finalDb, []⟩) := by
  have hpart1 : ∀ (db2 : DbState) (d : DocRow) (nid : Nat),
      db2.documents.filter (fun dd => dd.filename = filename) = [d] →
      d.file_hash = hashFn content →
      uploadDocument hashFn extractFn embedFn maxSizeMb chunkSize chunkOverlap
          nid db2 filename content =
        some ⟨Except.ok ⟨filename, none, UploadStatus.unchanged⟩, [], db2, []⟩ := by
    intro db2 d nid hfind hhash
    unfold uploadDocument
    rw [if_neg (by simp [hext]), if_neg (by omega), hfind]
    norm_num
    exact fun h => absurd hhash h
  constructor
  · intro d hfind hhash
    exact hpart1 db d nextId hfind hhash
  · intro text chunks nextId2 hfind hex hblank hchunk
    refine ⟨createOutcome embedFn nextId db filename content (hashFn content) chunks,
      ?_, rfl, ?_⟩
    · rw [uploadDocument_create hashFn extractFn embedFn maxSizeMb chunkSize
        chunkOverlap nextId db filename content hext hsize hfind]
      exact uploadIndex_create extractFn embedFn chunkSize chunkOverlap nextId db
        filename content (hashFn content) text chunks hex hblank hchunk
    · refine hpart1
        (createOutcome embedFn nextId db filename content (hashFn content) chunks).finalDb
        (⟨nextId, filename, hashFn content, content.length, chunks.length⟩ : DocRow)
        nextId2 ?_ rfl
      show (db.documents ++
          [(⟨nextId, filename, hashFn content, content.length, chunks.length⟩ : DocRow)]).filter
          (fun dd => dd.filename = filename) =
        [(⟨nextId, filename, hashFn content, content.length, chunks.length⟩ : DocRow)]
      rw [List.filter_append, hfind]
      simp

/-- Collaborators for the concrete counterexample runs: a hash function that
declares the stored and the new content different, a trivial extractor and a
one-vector-per-chunk embedder. -/
def cexHashFn : List Nat → List Char := fun _ => ['h', '2']

def cexExtractFn : List Nat → List Char → Except Unit (List Char) :=
  fun _ _ => Except.ok ['x']

def cexEmbedFn : List (List Char) → List (List Int) :=
  fun ts => ts.map (fun _ => [0])

/-- A database holding one indexed Document (hash `h1`) with one Chunk. -/
def cexDb : DbState :=
  ⟨[⟨1, "a.md".data, ['h', '1'], 1, 1⟩], [⟨1, "a.md".data, 0, ['y'], [0]⟩]⟩

/-- C3 counterexample: re-uploading `a.md` with different bytes commits twice
— the first commit publishes the delete-only state (no Document, no Chunks
for the key), the second the re-inserted state — so the replacement is not
one single transaction. -/
theorem C3_counterexample :
    uploadDocument cexHashFn cexExtractFn cexEmbedFn 100 10 2 5 cexDb
        "a.md".data [1] =
      some ⟨Except.ok ⟨"a.md".data, some 1, UploadStatus.updated⟩,
        [⟨[], []⟩,
          ⟨[⟨5, "a.md".data, ['h', '2'], 1, 1⟩], [⟨5, "a.md".data, 0, ['x'], [0]⟩]⟩],
        ⟨[⟨5, "a.md".data, ['h', '2'], 1, 1⟩], [⟨5, "a.md".data, 0, ['x'], [0]⟩]⟩,
        [PipelineEvent.extractCall, PipelineEvent.embedCall,
          PipelineEvent.commitEvent, PipelineEvent.commitEvent]⟩ ∧
    ([(⟨[], []⟩ : DbState),
      ⟨[⟨5, "a.md".data, ['h', '2'], 1, 1⟩], [⟨5, "a.md".data, 0, ['x'], [0]⟩]⟩] :
        List DbState).length = 2 ∧
    ((⟨[], []⟩ : DbState) ≠
      (⟨[⟨5, "a.md".data, ['h', '2'], 1, 1⟩],
        [⟨5, "a.md".data, 0, ['x'], [0]⟩]⟩ : DbState)) := by
  refine ⟨by decide, rfl, by decide⟩

/-- C3 amended: re-uploading an existing identity key with different bytes
performs the replacement in two transactions, not one.  The first commit
publishes the delete-only state `dbMid` — the Document row gone and every one
of its Chunks gone — and the second commit the re-inserted state.  No
committed state shows a Document row without its Chunks or Chunks without
their Document (referential integrity holds at both commits), but a crash
between the two commits loses the document entirely. -/
theorem C3_replacement_two_transactions (hashFn : List Nat → List Char)
    (extractFn : List Nat → List Char → Except Unit (List Char))
    (embedFn : List (List Char) → List (List Int))
    (maxSizeMb chunkSize chunkOverlap nextId : Nat) (db : DbState)
    (filename : List Char) (content : List Nat) (old : DocRow)
    (text : List Char) (chunks : List (List Char))
    (hext : pyLower (pySuffix filename) ∈ SUPPORTED_EXTENSIONS)
    (hsize : content.length ≤ maxSizeMb * 1024 * 1024)
    (hfind : db.documents.filter (fun d => d.filename = filename) = [old])
    (hdiff : ¬old.file_hash = hashFn content)
    (hex : extractFn content filename = Except.ok text)
    (hblank : ¬pyStrip text = [])
    (hchunk : chunk_textL text chunkSize chunkOverlap = some chunks)
    (hemb : (embedFn chunks).length = chunks.length)
    (hfresh : ∀ d ∈ db.documents, d.id ≠ nextId) :
    ∃ out, uploadDocument hashFn extractFn embedFn maxSizeMb chunkSize
        chunkOverlap nextId db filename content = some out ∧
      out.commits = [dbMid db old, out.finalDb] ∧
      out.commits.length = 2 ∧
      (dbMid db old).documents.filter (fun d => d.filename = filename) = [] ∧
      (dbMid db old).chunks.filter (fun c => c.document_id = old.id) = [] ∧
      (consistent db → ∀ st ∈ out.commits, consistent st) := by
  refine ⟨replaceOutcome embedFn nextId db filename content (hashFn content) old chunks,
    ?_, rfl, rfl, ?_, ?_, ?_⟩
  · rw [uploadDocument_replace hashFn extractFn embedFn maxSizeMb chunkSize
      chunkOverlap nextId db filename content old hext hsize hfind hdiff]
    exact uploadIndex_replace extractFn embedFn chunkSize chunkOverlap nextId db
      filename content (hashFn content) old text chunks hex hblank hchunk
  · show (db.documents.filter (fun d => d.id ≠ old.id)).filter
        (fun d => d.filename = filename) = []
    rw [docs_filter_comm, hfind]
    simp
  · exact filter_ne_then_eq db.chunks old.id
  · intro hcons st hst
    have hmid : consistent (dbMid db old) := by
      constructor
      · intro c hc
        obtain ⟨hcl, hcne⟩ := List.mem_filter.1 hc
        simp only [decide_eq_true_eq] at hcne
        obtain ⟨d, hd, hdid⟩ := hcons.1 c hcl
        exact ⟨d, List.mem_filter.2 ⟨hd, by simp [hdid, hcne]⟩, hdid⟩
      · intro d hd
        obtain ⟨hdl, hdne⟩ := List.mem_filter.1 hd
        simp only [decide_eq_true_eq] at hdne
        show ((db.chunks.filter (fun c => c.document_id ≠ old.id)).filter
          (fun c => c.document_id = d.id)).length = d.chunk_count
        rw [filter_ne_of_filter_eq db.chunks old.id d.id hdne]
        exact hcons.2 d hdl
    have hrowsid := newRows_docId embedFn nextId filename chunks
    have hfin : consistent (replaceOutcome embedFn nextId db filename content
        (hashFn content) old chunks).finalDb := by
      constructor
      · intro c hc
        rcases List.mem_append.1 hc with hc | hc
        · obtain ⟨d, hd, hdid⟩ := hmid.1 c hc
          exact ⟨d, List.mem_append.2 (Or.inl hd), hdid⟩
        · refine ⟨⟨nextId, filename, hashFn content, content.length, chunks.length⟩,
            ?_, ?_⟩
          · exact List.mem_append.2 (Or.inr (List.mem_singleton.2 rfl))
          · exact (hrowsid c hc).symm
      · intro d hd
        rcases List.mem_append.1 hd with hd | hd
        · have hdmem : d ∈ db.documents := (List.mem_filter.1 hd).1
          have hdne : ¬d.id = nextId := hfresh d hdmem
          show (((dbMid db old).chunks ++ newRows embedFn nextId filename chunks).filter
            (fun c => c.document_id = d.id)).length = d.chunk_count
          rw [List.filter_append]
          have hrz : (newRows embedFn nextId filename chunks).filter
              (fun c => c.document_id = d.id) = [] := by
            rw [List.filter_eq_nil_iff]
            intro r hr
            simp only [decide_eq_true_eq]
            rw [hrowsid r hr]
            exact fun hh => hdne hh.symm
          rw [hrz, List.append_nil]
          exact hmid.2 d hd
        · have hdeq : d = ⟨nextId, filename, hashFn content, content.length,
              chunks.length⟩ := List.mem_singleton.1 hd
          subst hdeq
          show (((dbMid db old).chunks ++ newRows embedFn nextId filename chunks).filter
            (fun c => c.document_id = nextId)).length = chunks.length
          rw [List.filter_append]
          have hmz : (dbMid db old).chunks.filter (fun c => c.document_id = nextId) = [] := by
            rw [List.filter_eq_nil_iff]
            intro c hc
            simp only [decide_eq_true_eq]
            intro hcid
            obtain ⟨d2, hd2, hd2id⟩ := hcons.1 c (List.mem_filter.1 hc).1
            exact hfresh d2 hd2 (hd2id.trans hcid)
          have hrs : (newRows embedFn nextId filename chunks).filter
              (fun c => c.document_id = nextId) = newRows embedFn nextId filename chunks := by
            rw [List.filter_eq_self]
            intro r hr
            simp [hrowsid r hr]
          rw [hmz, hrs, List.nil_append]
          exact newRows_length embedFn nextId filename chunks hemb
    rcases List.mem_cons.1 hst with rfl | hst
    · exact hmid
    · rcases List.mem_cons.1 hst with rfl | hst
      · exact hfin
      · simp at hst

/-- C4: after a successful re-ingestion of different bytes under an existing
identity key, no Chunk row of the prior Document version remains, the new
Chunk rows carry `chunk_index` values exactly `0..n-1` in order, and the
Document row under the key holds the new hash, the new byte size and
`chunk_count = n`, where `n` is the number of new chunks. -/
theorem C4_reingest_replaces_all_chunks (hashFn : List Nat → List Char)
    (extractFn : List Nat → List Char → Except Unit (List Char))
    (embedFn : List (List Char) → List (List Int))
    (maxSizeMb chunkSize chunkOverlap nextId : Nat) (db : DbState)
    (filename : List Char) (content : List Nat) (old : DocRow)
    (text : List Char) (chunks : List (List Char))
    (hext : pyLower (pySuffix filename) ∈ SUPPORTED_EXTENSIONS)
    (hsize : content.length ≤ maxSizeMb * 1024 * 1024)
    (hfind : db.documents.filter (fun d => d.filename = filename) = [old])
    (hdiff : ¬old.file_hash = hashFn content)
    (hex : extractFn content filename = Except.ok text)
    (hblank : ¬pyStrip text = [])
    (hchunk : chunk_textL text chunkSize chunkOverlap = some chunks)
    (hemb : (embedFn chunks).length = chunks.length)
    (hfresh : ∀ d ∈ db.documents, d.id ≠ nextId)
    (hfreshc : ∀ c ∈ db.chunks, c.document_id ≠ nextId) :
    ∃ out, uploadDocument hashFn extractFn embedFn maxSizeMb chunkSize
        chunkOverlap nextId db filename content = some out ∧
      out.result = Except.ok ⟨filename, some chunks.length, UploadStatus.updated⟩ ∧
      out.finalDb.chunks.filter (fun c => c.document_id = old.id) = [] ∧
      out.finalDb.documents.filter (fun d => d.filename = filename) =
        [⟨nextId, filename, hashFn content, content.length, chunks.length⟩] ∧
      (out.finalDb.chunks.filter (fun c => c.document_id = nextId)).map
          (fun c => c.chunk_index) = List.range chunks.length := by
  have hold : old ∈ db.documents := by
    have : old ∈ db.documents.filter (fun d => d.filename = filename) := by
      rw [hfind]
      exact List.mem_singleton.2 rfl
    exact (List.mem_filter.1 this).1
  have holdne : ¬nextId = old.id := fun hh => hfresh old hold hh.symm
  have hrowsid := newRows_docId embedFn nextId filename chunks
  refine ⟨replaceOutcome embedFn nextId db filename content (hashFn content) old chunks,
    ?_, rfl, ?_, ?_, ?_⟩
  · rw [uploadDocument_replace hashFn extractFn embedFn maxSizeMb chunkSize
      chunkOverlap nextId db filename content old hext hsize hfind hdiff]
    exact uploadIndex_replace extractFn embedFn chunkSize chunkOverlap nextId db
      filename content (hashFn content) old text chunks hex hblank hchunk
  · show (((dbMid db old).chunks ++ newRows embedFn nextId filename chunks).filter
      (fun c => c.document_id = old.id)) = []
    rw [List.filter_append]
    have h1 : (dbMid db old).chunks.filter (fun c => c.document_id = old.id) = [] :=
      filter_ne_then_eq db.chunks old.id
    rw [h1, List.nil_append, List.filter_eq_nil_iff]
    intro r hr
    simp only [decide_eq_true_eq]
    rw [hrowsid r hr]
    exact holdne
  · show (((dbMid db old).documents ++
        [(⟨nextId, filename, hashFn content, content.length, chunks.length⟩ : DocRow)]).filter
      (fun d => d.filename = filename)) = _
    rw [List.filter_append]
    show ((db.documents.filter (fun d => d.id ≠ old.id)).filter
        (fun d => d.filename = filename)) ++ _ = _
    rw [docs_filter_comm, hfind]
    simp
  · show (((dbMid db old).chunks ++ newRows embedFn nextId filename chunks).filter
        (fun c => c.document_id = nextId)).map (fun c => c.chunk_index) = _
    rw [List.filter_append]
    have hmz : (dbMid db old).chunks.filter (fun c => c.document_id = nextId) = [] := by
      rw [List.filter_eq_nil_iff]
      intro c hc
      simp only [decide_eq_true_eq]
      exact hfreshc c (List.mem_filter.1 hc).1
    have hrs : (newRows embedFn nextId filename chunks).filter
        (fun c => c.document_id = nextId) = newRows embedFn nextId filename chunks := by
      rw [List.filter_eq_self]
      intro r hr
      simp [hrowsid r hr]
    rw [hmz, hrs, List.nil_append]
    exact newRows_indices embedFn nextId filename chunks hemb

/-- Witness for C1 on a concrete database that already holds the uploaded
bytes' hash under the key, and for the two-upload idempotence on an empty
database. -/
theorem C1_upload_unchanged_idempotent_witness :
    uploadDocument (fun _ => ['h', '2']) cexExtractFn cexEmbedFn 100 10 2 5
        ⟨[⟨1, "a.md".data, ['h', '2'], 1, 1⟩], [⟨1, "a.md".data, 0, ['y'], [0]⟩]⟩
        "a.md".data [1] =
      some ⟨Except.ok ⟨"a.md".data, none, UploadStatus.unchanged⟩, [],
        ⟨[⟨1, "a.md".data, ['h', '2'], 1, 1⟩], [⟨1, "a.md".data, 0, ['y'], [0]⟩]⟩, []⟩ ∧
    (∃ out, uploadDocument (fun _ => ['h', '2']) cexExtractFn cexEmbedFn 100 10 2 5
        ⟨[], []⟩ "a.md".data [1] = some out ∧
      out.result = Except.ok ⟨"a.md".data, some 1, UploadStatus.created⟩ ∧
      uploadDocument (fun _ => ['h', '2']) cexExtractFn cexEmbedFn 100 10 2 9
          out.finalDb "a.md".data [1] =
        some ⟨Except.ok ⟨"a.md".data, none, UploadStatus.unchanged⟩, [],
          out.finalDb, []⟩) := by
  constructor
  · exact (C1_upload_unchanged_idempotent (fun _ => ['h', '2']) cexExtractFn
      cexEmbedFn 100 10 2 5
      ⟨[⟨1, "a.md".data, ['h', '2'], 1, 1⟩], [⟨1, "a.md".data, 0, ['y'], [0]⟩]⟩
      "a.md".data [1] (by decide) (by decide)).1
      ⟨1, "a.md".data, ['h', '2'], 1, 1⟩ (by decide) (by decide)
  · exact (C1_upload_unchanged_idempotent (fun _ => ['h', '2']) cexExtractFn
      cexEmbedFn 100 10 2 5 ⟨[], []⟩ "a.md".data [1] (by decide) (by decide)).2
      ['x'] [['x']] 9 (by decide) rfl (by decide) (by decide)

/-- Witness for the amended C3 on the concrete replacement run. -/
theorem C3_replacement_two_transactions_witness :
    ∃ out, uploadDocument cexHashFn cexExtractFn cexEmbedFn 100 10 2 5 cexDb
        "a.md".data [1] = some out ∧
      out.commits = [dbMid cexDb ⟨1, "a.md".data, ['h', '1'], 1, 1⟩, out.finalDb] ∧
      out.commits.length = 2 ∧
      (dbMid cexDb ⟨1, "a.md".data, ['h', '1'], 1, 1⟩).documents.filter
        (fun d => d.filename = "a.md".data) = [] ∧
      (dbMid cexDb ⟨1, "a.md".data, ['h', '1'], 1, 1⟩).chunks.filter
        (fun c => c.document_id = (⟨1, "a.md".data, ['h', '1'], 1, 1⟩ : DocRow).id) = [] ∧
      (consistent cexDb → ∀ st ∈ out.commits, consistent st) :=
  C3_replacement_two_transactions cexHashFn cexExtractFn cexEmbedFn 100 10 2 5
    cexDb "a.md".data [1] ⟨1, "a.md".data, ['h', '1'], 1, 1⟩ ['x'] [['x']]
    (by decide) (by decide) (by decide) (by decide) rfl (by decide) (by decide)
    (by decide) (by decide)

/-- Witness for C4 on the concrete replacement run. -/
theorem C4_reingest_replaces_all_chunks_witness :
    ∃ out, uploadDocument cexHashFn cexExtractFn cexEmbedFn 100 10 2 5 cexDb
        "a.md".data [1] = some out ∧
      out.result = Except.ok ⟨"a.md".data, some 1, UploadStatus.updated⟩ ∧
      out.finalDb.chunks.filter
        (fun c => c.document_id = (⟨1, "a.md".data, ['h', '1'], 1, 1⟩ : DocRow).id) = [] ∧
      out.finalDb.documents.filter (fun d => d.filename = "a.md".data) =
        [⟨5, "a.md".data, cexHashFn [1], ([1] : List Nat).length, ([[('x' : Char)]]).length⟩] ∧
      (out.finalDb.chunks.filter (fun c => c.document_id = 5)).map
        (fun c => c.chunk_index) = List.range ([[('x' : Char)]]).length :=
  C4_reingest_replaces_all_chunks cexHashFn cexExtractFn cexEmbedFn 100 10 2 5
    cexDb "a.md".data [1] ⟨1, "a.md".data, ['h', '1'], 1, 1⟩ ['x'] [['x']]
    (by decide) (by decide) (by decide) (by decide) rfl (by decide) (by decide)
    (by decide) (by decide) (by decide)

/-! ### PDF extraction with batching and rate limiting
(`server/api/services/extraction.py`)

The external call (`claude_client.messages.create`, run in a thread pool) is
abstracted by its outcome per batch number.  Wall-clock time is `ℚ`;
statements between suspension points are treated as instantaneous, so only
sleeps and the external calls advance the clock.  The pikepdf unlock and the
PyPDF2 page handling are abstracted into the `totalPages`/`sizeBytes`
parameters; the `send_progress` call per batch is orthogonal to these claims
and not recorded. -/

/-- An HTTP error (status code plus detail string), as carried by
`fastapi.HTTPException`. -/
structure HTTPError where
  status : Nat
  detail : String
deriving DecidableEq

/-- Outcome of one external extraction call: returned text with its duration,
a timeout, a `BadRequestError` (flagging whether `str(e)` contains
"content filtering policy"), or any other exception. -/
inductive ClaudeResult
  | ok (text : String) (dur : ℚ)
  | timeout (msg : String)
  | badRequest (policyViolation : Bool) (msg : String)
  | otherError (msg : String)
deriving DecidableEq

/-- Is the call outcome a failure? -/
def ClaudeResult.isFailure : ClaudeResult → Bool
  | ClaudeResult.ok _ _ => false
  | _ => true

/-- What propagates out of `extract_text_from_pdf_batch` on failure: an
`HTTPException` it raised itself, or the re-raised original exception. -/
inductive BatchRaise
  | httpExc (e : HTTPError)
  | reraised (msg : String)
deriving DecidableEq

/-- The page-range label `f"{page_start+1}-{page_end}"` used in the batch
error messages. -/
def pagesLabel (pageStart pageEnd : Nat) : String :=
  toString (pageStart + 1) ++ "-" ++ toString pageEnd

/-- `str(e)` of a propagated batch failure; for an `HTTPException`,
starlette renders `f"{status_code}: {detail}"`. -/
def strOfBatchRaise : BatchRaise → String
  | BatchRaise.httpExc e => toString e.status ++ ": " ++ e.detail
  | BatchRaise.reraised msg => msg

/-- `extract_text_from_pdf_batch`: classify a failing external call — timeout
becomes HTTP 504 naming the page range, a content-policy rejection becomes
HTTP 400 citing the page range, any other `BadRequestError` becomes HTTP 400
with the message, and anything else is re-raised unchanged. -/
def extract_text_from_pdf_batch (callResult : ClaudeResult)
    (pageStart pageEnd : Nat) : Except BatchRaise (String × ℚ) :=
  match callResult with
  | ClaudeResult.ok text dur => Except.ok (text, dur)
  | ClaudeResult.timeout _ =>
    Except.error (BatchRaise.httpExc ⟨504,
      "Claude API timeout on pages " ++ pagesLabel pageStart pageEnd⟩)
  | ClaudeResult.badRequest true _ =>
    Except.error (BatchRaise.httpExc ⟨400,
      "PDF content blocked by content filtering policy (pages " ++
        pagesLabel pageStart pageEnd ++ ")"⟩)
  | ClaudeResult.badRequest false msg =>
    Except.error (BatchRaise.httpExc ⟨400,
      "Claude API error on pages " ++ pagesLabel pageStart pageEnd ++ ": " ++ msg⟩)
  | ClaudeResult.otherError msg => Except.error (BatchRaise.reraised msg)

/-- Rate-limiter state: current wall-clock time and the module-global
`last_batch_time` (initially `None` in a fresh process). -/
structure RLState where
  now : ℚ
  last : Option ℚ
deriving DecidableEq

/-- `rate_limit_batch()`: a no-op when the configured batches-per-minute `N`
is not positive; otherwise sleep until at least `60/N` seconds have passed
since `last_batch_time` when that is set (no wait at all when it is unset),
then record the current time in `last_batch_time`.  Returns the new state
and the time slept. -/
def rate_limit_batch (N : Int) (st : RLState) : RLState × ℚ :=
  if N ≤ 0 then (st, 0)
  else
    let minInterval : ℚ := 60 / (N : ℚ)
    match st.last with
    | some t0 =>
      let elapsed := st.now - t0
      let wait : ℚ := if elapsed < minInterval then minInterval - elapsed else 0
      let now2 := st.now + wait
      (⟨now2, some now2⟩, wait)
    | none => (⟨st.now, some st.now⟩, 0)

/-- One processed batch: its page range, the time slept in the throttle
before its call, and the clock at which its external call begins. -/
structure BatchStep where
  batchRange : Nat × Nat
  wait : ℚ
  callStart : ℚ
deriving DecidableEq

/-- The `for batch_num, batch_start in enumerate(range(0, total_pages,
PDF_BATCH_SIZE), 1)` loop: stop past `batches_to_process`, throttle from the
second batch on, call the batch extractor, abort on its failure, collect the
text otherwise. -/
def runBatches (N : Int) (B total btp : Nat) (callResult : Nat → ClaudeResult) :
    Nat → List Nat → RLState →
      List BatchStep × Except BatchRaise (List String) × RLState
  | _, [], st => ([], Except.ok [], st)
  | k, bs :: rest, st =>
    if btp < k then ([], Except.ok [], st)
    else
      let batchEnd := min (bs + B) total
      let rl := if 1 < k then rate_limit_batch N st else (st, 0)
      match extract_text_from_pdf_batch (callResult k) bs batchEnd with
      | Except.error e => ([⟨(bs, batchEnd), rl.2, rl.1.now⟩], Except.error e, rl.1)
      | Except.ok (text, dur) =>
        let st2 : RLState := ⟨rl.1.now + dur, rl.1.last⟩
        let res := runBatches N B total btp callResult (k + 1) rest st2
        (⟨(bs, batchEnd), rl.2, rl.1.now⟩ :: res.1,
          (match res.2.1 with
            | Except.error e => Except.error e
            | Except.ok parts => Except.ok (text :: parts)), res.2.2)

/-- The batch start pages: Python `range(0, total_pages, PDF_BATCH_SIZE)`,
which for a positive batch size has `ceil(total_pages / PDF_BATCH_SIZE)`
elements. -/
def pdfBatchStarts (total B : Nat) : List Nat :=
  List.range' 0 ((total + B - 1) / B) B

/-- `PDF_BATCH_SIZE`, `PDF_BATCHES_PER_MINUTE`, `PDF_MAX_BATCHES` from
`core/config.py` (the cap is `None` unless its env var is set). -/
structure PdfExtractConfig where
  batchSize : Nat
  batchesPerMinute : Int
  maxBatches : Option Int
deriving DecidableEq

/-- `batches_to_process`: the cap applies only when configured, positive and
exceeded. -/
def batchesToProcess (cfg : PdfExtractConfig) (totalBatches : Nat) : Nat :=
  match cfg.maxBatches with
  | some m => if 0 < m ∧ m < (totalBatches : Int) then m.toNat else totalBatches
  | none => totalBatches

/-- A full run of `extract_text_from_pdf`: the processed batch steps, the
overall result, and the rate-limiter state afterwards. -/
structure PdfRun where
  steps : List BatchStep
  result : Except HTTPError String
  final : RLState
deriving DecidableEq

/-- `extract_text_from_pdf`: a large PDF (over 5MB or over 50 pages) is
processed batch by batch, the outputs joined with a blank line; a failure
propagating from a batch — including the HTTP 504/400 the batch classifier
raised — is caught by the enclosing `except Exception` and re-raised as a
generic HTTP 500 "PDF extraction failed: ..." (the `except
anthropic.BadRequestError` arm does not match an `HTTPException`).  A small
PDF goes out in a single call with its own classification. -/
def extract_text_from_pdf (cfg : PdfExtractConfig)
    (callResult : Nat → ClaudeResult) (singleResult : ClaudeResult)
    (sizeBytes totalPages : Nat) (st : RLState) : PdfRun :=
  if 5 * 1024 * 1024 < sizeBytes ∨ 50 < totalPages then
    let totalBatches := (totalPages + cfg.batchSize - 1) / cfg.batchSize
    let btp := batchesToProcess cfg totalBatches
    let r := runBatches cfg.batchesPerMinute cfg.batchSize totalPages btp
      callResult 1 (pdfBatchStarts totalPages cfg.batchSize) st
    match r.2.1 with
    | Except.ok parts => ⟨r.1, Except.ok (String.intercalate "\n\n" parts), r.2.2⟩
    | Except.error e =>
      ⟨r.1, Except.error ⟨500, "PDF extraction failed: " ++ strOfBatchRaise e⟩, r.2.2⟩
  else
    match singleResult with
    | ClaudeResult.ok text dur => ⟨[], Except.ok text, ⟨st.now + dur, st.last⟩⟩
    | ClaudeResult.timeout msg =>
      ⟨[], Except.error ⟨500, "PDF extraction failed: " ++ msg⟩, st⟩
    | ClaudeResult.badRequest true _ =>
      ⟨[], Except.error ⟨400,
        "PDF content was blocked by Claude's content filtering policy. This can happen with certain documents. Try a different PDF or contact support if this persists."⟩, st⟩
    | ClaudeResult.badRequest false msg =>
      ⟨[], Except.error ⟨400, "Claude API error: " ++ msg⟩, st⟩
    | ClaudeResult.otherError msg =>
      ⟨[], Except.error ⟨500, "PDF extraction failed: " ++ msg⟩, st⟩

/-! ### Facts about the rate limiter and the batch loop -/

/-- A throttled call (positive rate) always records its completion time. -/
theorem rate_limit_batch_sets_last (N : Int) (hN : 0 < N) (st : RLState) :
    (rate_limit_batch N st).1.last = some (rate_limit_batch N st).1.now := by
  unfold rate_limit_batch
  rw [if_neg (by omega)]
  rcases hl : st.last with _ | t0 <;> simp [hl]

/-- A throttled call with the timestamp set guarantees at least `60/N`
seconds between the recorded previous time and the new one. -/
theorem rate_limit_batch_gap (N : Int) (hN : 0 < N) (st : RLState) (t0 : ℚ)
    (hl : st.last = some t0) :
    t0 + 60 / (N : ℚ) ≤ (rate_limit_batch N st).1.now := by
  unfold rate_limit_batch
  rw [if_neg (by omega), hl]
  dsimp only
  split
  · rename_i h
    linarith
  · rename_i h
    push_neg at h
    linarith

/-- With a non-positive rate the limiter does nothing. -/
theorem rate_limit_batch_disabled (N : Int) (hN : N ≤ 0) (st : RLState) :
    rate_limit_batch N st = (st, 0) := by
  unfold rate_limit_batch
  rw [if_pos hN]

theorem runBatches_nil (N : Int) (B total btp : Nat)
    (callResult : Nat → ClaudeResult) (k : Nat) (st : RLState) :
    runBatches N B total btp callResult k [] st = ([], Except.ok [], st) := rfl

theorem runBatches_stop (N : Int) (B total btp : Nat)
    (callResult : Nat → ClaudeResult) (k bs : Nat) (rest : List Nat)
    (st : RLState) (h : btp < k) :
    runBatches N B total btp callResult k (bs :: rest) st = ([], Except.ok [], st) := by
  simp only [runBatches]
  rw [if_pos h]

theorem runBatches_cons (N : Int) (B total btp : Nat)
    (callResult : Nat → ClaudeResult) (k bs : Nat) (rest : List Nat)
    (st : RLState) (hbtp : ¬btp < k) :
    runBatches N B total btp callResult k (bs :: rest) st =
      (let batchEnd := min (bs + B) total
       let rl := if 1 < k then rate_limit_batch N st else (st, 0)
       match extract_text_from_pdf_batch (callResult k) bs batchEnd with
       | Except.error e => ([⟨(bs, batchEnd), rl.2, rl.1.now⟩], Except.error e, rl.1)
       | Except.ok (text, dur) =>
         let st2 : RLState := ⟨rl.1.now + dur, rl.1.last⟩
         let res := runBatches N B total btp callResult (k + 1) rest st2
         (⟨(bs, batchEnd), rl.2, rl.1.now⟩ :: res.1,
           (match res.2.1 with
             | Except.error e => Except.error e
             | Except.ok parts => Except.ok (text :: parts)), res.2.2)) := by
  simp only [runBatches]
  rw [if_neg hbtp]

/-- Starting from a throttled state whose timestamp is set, every processed
batch starts at least `60/N` after the recorded time, and consecutive batch
starts are at least `60/N` apart. -/
theorem runBatches_chain_from (N : Int) (B total btp : Nat)
    (callResult : Nat → ClaudeResult) (hN : 0 < N) :
    ∀ (rest : List Nat) (k : Nat) (st : RLState) (t0 : ℚ),
      2 ≤ k → st.last = some t0 →
      (∀ s, (runBatches N B total btp callResult k rest st).1.head? = some s →
        t0 + 60 / (N : ℚ) ≤ s.callStart) ∧
      List.Chain' (fun a b => a.callStart + 60 / (N : ℚ) ≤ b.callStart)
        (runBatches N B total btp callResult k rest st).1 := by
  intro rest
  induction rest with
  | nil =>
    intro k st t0 hk hl
    rw [runBatches_nil]
    exact ⟨fun s hs => by simp at hs, List.chain'_nil⟩
  | cons bs rest ih =>
    intro k st t0 hk hl
    by_cases hbtp : btp < k
    · rw [runBatches_stop N B total btp callResult k bs rest st hbtp]
      exact ⟨fun s hs => by simp at hs, List.chain'_nil⟩
    · rw [runBatches_cons N B total btp callResult k bs rest st hbtp,
        if_pos (show 1 < k by omega)]
      have hset := rate_limit_batch_sets_last N hN st
      have hgap := rate_limit_batch_gap N hN st t0 hl
      rcases hcall : extract_text_from_pdf_batch (callResult k) bs (min (bs + B) total)
        with e | td
      · simp only [hcall]
        refine ⟨fun s hs => ?_, ?_⟩
        · obtain rfl : (⟨(bs, min (bs + B) total), (rate_limit_batch N st).2,
              (rate_limit_batch N st).1.now⟩ : BatchStep) = s := by
            simpa using hs
          exact hgap
        · exact List.chain'_singleton _
      · obtain ⟨text, dur⟩ := td
        simp only [hcall]
        have hrec := ih (k + 1) ⟨(rate_limit_batch N st).1.now + dur,
          (rate_limit_batch N st).1.last⟩ (rate_limit_batch N st).1.now
          (by omega) (by rw [hset])
        refine ⟨fun s hs => ?_, ?_⟩
        · obtain rfl : (⟨(bs, min (bs + B) total), (rate_limit_batch N st).2,
              (rate_limit_batch N st).1.now⟩ : BatchStep) = s := by
            simpa using hs
          exact hgap
        · rw [List.chain'_cons']
          exact ⟨fun b hb => hrec.1 b hb, hrec.2⟩

/-- From the second batch on, consecutive batch starts are at least `60/N`
apart (whatever the incoming timestamp state). -/
theorem runBatches_chain (N : Int) (B total btp : Nat)
    (callResult : Nat → ClaudeResult) (hN : 0 < N)
    (rest : List Nat) (k : Nat) (st : RLState) (hk : 2 ≤ k) :
    List.Chain' (fun a b => a.callStart + 60 / (N : ℚ) ≤ b.callStart)
      (runBatches N B total btp callResult k rest st).1 := by
  rcases hl : st.last with _ | t0
  · -- timestamp unset: the first throttled call sets it without waiting
    rcases rest with _ | ⟨bs, rest⟩
    · rw [runBatches_nil]
      exact List.chain'_nil
    · by_cases hbtp : btp < k
      · rw [runBatches_stop N B total btp callResult k bs rest st hbtp]
        exact List.chain'_nil
      · rw [runBatches_cons N B total btp callResult k bs rest st hbtp,
          if_pos (show 1 < k by omega)]
        have hset := rate_limit_batch_sets_last N hN st
        rcases hcall : extract_text_from_pdf_batch (callResult k) bs (min (bs + B) total)
          with e | td
        · simp only [hcall]
          exact List.chain'_singleton _
        · obtain ⟨text, dur⟩ := td
          simp only [hcall]
          have hrec := runBatches_chain_from N B total btp callResult hN rest
            (k + 1) ⟨(rate_limit_batch N st).1.now + dur, (rate_limit_batch N st).1.last⟩
            (rate_limit_batch N st).1.now (by omega) (by rw [hset])
          rw [List.chain'_cons']
          exact ⟨fun b hb => hrec.1 b hb, hrec.2⟩
  · exact (runBatches_chain_from N B total btp callResult hN rest k st t0 hk hl).2

/-- When every external call succeeds and the cap is not hit, the loop
processes exactly the given page ranges in order and collects the batch texts
in batch order. -/
theorem runBatches_all_ok (N : Int) (B total btp : Nat)
    (callResult : Nat → ClaudeResult) (texts : Nat → String) (durs : Nat → ℚ)
    (hcall : ∀ j, callResult j = ClaudeResult.ok (texts j) (durs j)) :
    ∀ (rest : List Nat) (k : Nat) (st : RLState),
      k + rest.length ≤ btp + 1 →
      (runBatches N B total btp callResult k rest st).1.map (fun s => s.batchRange) =
        rest.map (fun bs => (bs, min (bs + B) total)) ∧
      (runBatches N B total btp callResult k rest st).2.1 =
        Except.ok ((List.range' k rest.length).map texts) := by
  intro rest
  induction rest with
  | nil =>
    intro k st h
    rw [runBatches_nil]
    exact ⟨rfl, rfl⟩
  | cons bs rest ih =>
    intro k st h
    have hbtp : ¬btp < k := by
      simp only [List.length_cons] at h
      omega
    rw [runBatches_cons N B total btp callResult k bs rest st hbtp]
    have hb : extract_text_from_pdf_batch (callResult k) bs (min (bs + B) total) =
        Except.ok (texts k, durs k) := by
      rw [hcall k]
      rfl
    simp only [hb]
    have hrec := ih (k + 1)
      ⟨(if 1 < k then rate_limit_batch N st else (st, 0)).1.now + durs k,
        (if 1 < k then rate_limit_batch N st else (st, 0)).1.last⟩
      (by simp only [List.length_cons] at h; omega)
    refine ⟨?_, ?_⟩
    · simp only [List.map_cons]
      rw [hrec.1]
    · rw [hrec.2]
      simp only [List.length_cons, List.range'_succ, List.map_cons]

/-- With throttling disabled (`N ≤ 0`) no batch ever waits. -/
theorem runBatches_no_wait (N : Int) (B total btp : Nat)
    (callResult : Nat → ClaudeResult) (hN : N ≤ 0) :
    ∀ (rest : List Nat) (k : Nat) (st : RLState),
      ∀ s ∈ (runBatches N B total btp callResult k rest st).1, s.wait = 0 := by
  intro rest
  induction rest with
  | nil =>
    intro k st s hs
    rw [runBatches_nil] at hs
    simp at hs
  | cons bs rest ih =>
    intro k st s hs
    by_cases hbtp : btp < k
    · rw [runBatches_stop N B total btp callResult k bs rest st hbtp] at hs
      simp at hs
    · rw [runBatches_cons N B total btp callResult k bs rest st hbtp] at hs
      have hrl : (if 1 < k then rate_limit_batch N st else (st, 0)).2 = 0 := by
        by_cases h1 : 1 < k
        · rw [if_pos h1, rate_limit_batch_disabled N hN st]
        · rw [if_neg h1]
      rcases hcall : extract_text_from_pdf_batch (callResult k) bs (min (bs + B) total)
        with e | td
      · simp only [hcall] at hs
        simp only [List.mem_singleton] at hs
        subst hs
        exact hrl
      · obtain ⟨text, dur⟩ := td
        simp only [hcall] at hs
        rcases List.mem_cons.1 hs with rfl | hs
        · exact hrl
        · exact ih (k + 1) _ s hs

/-- The first batch never waits: the throttle is skipped for `batch_num = 1`. -/
theorem runBatches_first_wait (N : Int) (B total btp : Nat)
    (callResult : Nat → ClaudeResult) (rest : List Nat) (st : RLState) :
    ∀ s, (runBatches N B total btp callResult 1 rest st).1.head? = some s →
      s.wait = 0 := by
  intro s hs
  rcases rest with _ | ⟨bs, rest⟩
  · rw [runBatches_nil] at hs
    simp at hs
  · by_cases hbtp : btp < 1
    · rw [runBatches_stop N B total btp callResult 1 bs rest st hbtp] at hs
      simp at hs
    · rw [runBatches_cons N B total btp callResult 1 bs rest st hbtp] at hs
      rcases hcall : extract_text_from_pdf_batch (callResult 1) bs (min (bs + B) total)
        with e | td
      · simp only [hcall] at hs
        simp only [List.head?_cons, Option.some.injEq] at hs
        subst hs
        rfl
      · obtain ⟨text, dur⟩ := td
        simp only [hcall] at hs
        simp only [List.head?_cons, Option.some.injEq] at hs
        subst hs
        rfl

/-- A failing external call yields some classified error for any page range. -/
theorem batch_failure_error (cr : ClaudeResult) (h : cr.isFailure = true)
    (a b : Nat) :
    ∃ e, extract_text_from_pdf_batch cr a b = Except.error e := by
  cases cr with
  | ok text dur => simp [ClaudeResult.isFailure] at h
  | timeout m => exact ⟨_, rfl⟩
  | badRequest pol m =>
    cases pol with
    | false => exact ⟨_, rfl⟩
    | true => exact ⟨_, rfl⟩
  | otherError m => exact ⟨_, rfl⟩

/-- When the calls before batch `kfail` succeed and the `kfail`-th call
fails, the loop attempts exactly the batches up to and including `kfail`
(none after it) and propagates the classified error of the failing batch:
no partial text is returned. -/
theorem runBatches_abort (N : Int) (B total btp kfail : Nat)
    (callResult : Nat → ClaudeResult) (texts : Nat → String) (durs : Nat → ℚ)
    (hok : ∀ j, j < kfail → callResult j = ClaudeResult.ok (texts j) (durs j))
    (hfail : (callResult kfail).isFailure = true) :
    ∀ (rest : List Nat) (k : Nat) (st : RLState),
      k + rest.length ≤ btp + 1 →
      k ≤ kfail → kfail < k + rest.length →
      (runBatches N B total btp callResult k rest st).1.length = kfail - k + 1 ∧
      ∃ (e : BatchRaise) (bs : Nat),
        rest[kfail - k]? = some bs ∧
        extract_text_from_pdf_batch (callResult kfail) bs (min (bs + B) total) =
          Except.error e ∧
        (runBatches N B total btp callResult k rest st).2.1 = Except.error e := by
  intro rest
  induction rest with
  | nil =>
    intro k st h hk1 hk2
    simp at hk2
    omega
  | cons bs rest ih =>
    intro k st h hk1 hk2
    have hbtp : ¬btp < k := by
      simp only [List.length_cons] at h
      omega
    rw [runBatches_cons N B total btp callResult k bs rest st hbtp]
    rcases Nat.eq_or_lt_of_le hk1 with rfl | hlt
    · -- this batch is the failing one
      obtain ⟨e, he⟩ := batch_failure_error (callResult k) hfail bs (min (bs + B) total)
      simp only [he]
      refine ⟨by simp, e, bs, ?_, he, rfl⟩
      simp
    · -- this batch succeeds, recurse
      have hb : extract_text_from_pdf_batch (callResult k) bs (min (bs + B) total) =
          Except.ok (texts k, durs k) := by
        rw [hok k hlt]
        rfl
      simp only [hb]
      have hrec := ih (k + 1)
        ⟨(if 1 < k then rate_limit_batch N st else (st, 0)).1.now + durs k,
          (if 1 < k then rate_limit_batch N st else (st, 0)).1.last⟩
        (by simp only [List.length_cons] at h; omega) (by omega)
        (by simp only [List.length_cons] at hk2; omega)
      obtain ⟨e, bs2, hbs2, hcl, hres⟩ := hrec.2
      refine ⟨?_, e, bs2, ?_, hcl, ?_⟩
      · simp only [List.length_cons, hrec.1]
        omega
      · have hidx : kfail - k = (kfail - (k + 1)) + 1 := by omega
        rw [hidx]
        simpa using hbs2
      · simp only [hres]

/-- The tail of a full run (batches 2 onward) has consecutive call starts at
least `60/N` apart. -/
theorem runBatches_tail_chain (N : Int) (B total btp : Nat)
    (callResult : Nat → ClaudeResult) (hN : 0 < N) (rest : List Nat)
    (st : RLState) :
    List.Chain' (fun a b => a.callStart + 60 / (N : ℚ) ≤ b.callStart)
      ((runBatches N B total btp callResult 1 rest st).1.drop 1) := by
  rcases rest with _ | ⟨bs, rest⟩
  · rw [runBatches_nil]
    exact List.chain'_nil
  · by_cases hbtp : btp < 1
    · rw [runBatches_stop N B total btp callResult 1 bs rest st hbtp]
      exact List.chain'_nil
    · rw [runBatches_cons N B total btp callResult 1 bs rest st hbtp]
      rcases hcall : extract_text_from_pdf_batch (callResult 1) bs (min (bs + B) total)
        with e | td
      · simp only [hcall]
        exact List.chain'_nil
      · obtain ⟨text, dur⟩ := td
        simp only [hcall, List.drop_succ_cons, List.drop_zero]
        exact runBatches_chain N B total btp callResult hN rest 2 _ (le_refl 2)

/-! ### Claims C7 and C8 -/

/-- C7 counterexample: a 51-page PDF (three batches of 20 pages) at the
default rate limit of 60 batches/minute, in a fresh process where
`last_batch_time` is unset: batch 1 calls at time 0 and batch 2 also calls at
time 0 with zero wait — the throttle before batch 2 finds no previous
timestamp and returns immediately — so batch 2 is not preceded by a wait
guaranteeing `60/N` seconds since batch 1 (only batch 3 is). -/
theorem C7_counterexample :
    (extract_text_from_pdf ⟨20, 60, none⟩ (fun k => ClaudeResult.ok (toString k) 0)
        (ClaudeResult.ok "s" 0) 0 51 ⟨0, none⟩).steps.map
        (fun s => (s.batchRange, s.wait, s.callStart)) =
      [((0, 20), 0, 0), ((20, 40), 0, 0), ((40, 51), 1, 1)] ∧
    ¬((0 : ℚ) + 60 / 60 ≤ 0) := by
  constructor
  · norm_num [extract_text_from_pdf, batchesToProcess, pdfBatchStarts,
      runBatches, extract_text_from_pdf_batch, rate_limit_batch, List.range']
  · norm_num

/-- C7 amended: for a large PDF with the batch cap unconfigured and all
external calls succeeding, extraction processes exactly the
`ceil(total_pages / PDF_BATCH_SIZE)` fixed-size page ranges in order, returns
the batch outputs joined with a blank line in batch order, never waits before
the first batch, never waits at all when `N ≤ 0`, and when `N > 0` guarantees
at least `60/N` seconds between consecutive call starts from the second batch
on — but not between batch 1 and batch 2 when the shared `last_batch_time`
starts unset, since batch 1 never sets it. -/
theorem C7_large_pdf_batch_schedule (cfg : PdfExtractConfig)
    (callResult : Nat → ClaudeResult) (singleResult : ClaudeResult)
    (texts : Nat → String) (durs : Nat → ℚ)
    (sizeBytes totalPages : Nat) (st : RLState)
    (hcap : cfg.maxBatches = none)
    (hlarge : 5 * 1024 * 1024 < sizeBytes ∨ 50 < totalPages)
    (hcall : ∀ j, callResult j = ClaudeResult.ok (texts j) (durs j)) :
    (extract_text_from_pdf cfg callResult singleResult sizeBytes totalPages
        st).steps.map (fun s => s.batchRange) =
      (pdfBatchStarts totalPages cfg.batchSize).map
        (fun bs => (bs, min (bs + cfg.batchSize) totalPages)) ∧
    (extract_text_from_pdf cfg callResult singleResult sizeBytes totalPages
        st).steps.length = (totalPages + cfg.batchSize - 1) / cfg.batchSize ∧
    (extract_text_from_pdf cfg callResult singleResult sizeBytes totalPages
        st).result = Except.ok (String.intercalate "\n\n"
        ((List.range' 1 ((totalPages + cfg.batchSize - 1) / cfg.batchSize)).map texts)) ∧
    (∀ s, (extract_text_from_pdf cfg callResult singleResult sizeBytes totalPages
        st).steps.head? = some s → s.wait = 0) ∧
    (cfg.batchesPerMinute ≤ 0 →
      ∀ s ∈ (extract_text_from_pdf cfg callResult singleResult sizeBytes totalPages
        st).steps, s.wait = 0) ∧
    (0 < cfg.batchesPerMinute →
      List.Chain' (fun a b =>
          a.callStart + 60 / (cfg.batchesPerMinute : ℚ) ≤ b.callStart)
        ((extract_text_from_pdf cfg callResult singleResult sizeBytes totalPages
          st).steps.drop 1)) := by
  have hbtp : batchesToProcess cfg
      ((totalPages + cfg.batchSize - 1) / cfg.batchSize) =
      (totalPages + cfg.batchSize - 1) / cfg.batchSize := by
    unfold batchesToProcess
    rw [hcap]
  have hlen : (pdfBatchStarts totalPages cfg.batchSize).length =
      (totalPages + cfg.batchSize - 1) / cfg.batchSize :=
    List.length_range' _ _ _
  have hok := runBatches_all_ok cfg.batchesPerMinute cfg.batchSize totalPages
    ((totalPages + cfg.batchSize - 1) / cfg.batchSize) callResult texts durs hcall
    (pdfBatchStarts totalPages cfg.batchSize) 1 st (by rw [hlen]; omega)
  have hrun : extract_text_from_pdf cfg callResult singleResult sizeBytes
      totalPages st =
      ⟨(runBatches cfg.batchesPerMinute cfg.batchSize totalPages
          ((totalPages + cfg.batchSize - 1) / cfg.batchSize) callResult 1
          (pdfBatchStarts totalPages cfg.batchSize) st).1,
        Except.ok (String.intercalate "\n\n"
          ((List.range' 1 ((totalPages + cfg.batchSize - 1) /
            cfg.batchSize)).map texts)),
        (runBatches cfg.batchesPerMinute cfg.batchSize totalPages
          ((totalPages + cfg.batchSize - 1) / cfg.batchSize) callResult 1
          (pdfBatchStarts totalPages cfg.batchSize) st).2.2⟩ := by
    unfold extract_text_from_pdf
    rw [if_pos hlarge]
    simp only [hbtp, hok.2]
    rw [hlen]
  refine ⟨?_, ?_, ?_, ?_, ?_, ?_⟩
  · rw [hrun]
    exact hok.1
  · rw [hrun]
    have := congrArg List.length hok.1
    simp only [List.length_map] at this
    rw [this, hlen]
  · rw [hrun]
  · rw [hrun]
    exact runBatches_first_wait _ _ _ _ _ _ _
  · intro hN
    rw [hrun]
    exact runBatches_no_wait _ _ _ _ _ hN _ _ _
  · intro hN
    rw [hrun]
    exact runBatches_tail_chain _ _ _ _ _ hN _ _

/-- Witness for the amended C7: a 51-page PDF, batch size 20, 60
batches/minute, fresh process. -/
theorem C7_large_pdf_batch_schedule_witness :
    (extract_text_from_pdf ⟨20, 60, none⟩ (fun k => ClaudeResult.ok (toString k) 0)
        (ClaudeResult.ok "s" 0) 0 51 ⟨0, none⟩).steps.map (fun s => s.batchRange) =
      (pdfBatchStarts 51 20).map (fun bs => (bs, min (bs + 20) 51)) ∧
    (extract_text_from_pdf ⟨20, 60, none⟩ (fun k => ClaudeResult.ok (toString k) 0)
        (ClaudeResult.ok "s" 0) 0 51 ⟨0, none⟩).steps.length = (51 + 20 - 1) / 20 ∧
    (extract_text_from_pdf ⟨20, 60, none⟩ (fun k => ClaudeResult.ok (toString k) 0)
        (ClaudeResult.ok "s" 0) 0 51 ⟨0, none⟩).result =
      Except.ok (String.intercalate "\n\n"
        ((List.range' 1 ((51 + 20 - 1) / 20)).map (fun k => toString k))) ∧
    (∀ s, (extract_text_from_pdf ⟨20, 60, none⟩
        (fun k => ClaudeResult.ok (toString k) 0)
        (ClaudeResult.ok "s" 0) 0 51 ⟨0, none⟩).steps.head? = some s → s.wait = 0) ∧
    ((60 : Int) ≤ 0 →
      ∀ s ∈ (extract_text_from_pdf ⟨20, 60, none⟩
        (fun k => ClaudeResult.ok (toString k) 0)
        (ClaudeResult.ok "s" 0) 0 51 ⟨0, none⟩).steps, s.wait = 0) ∧
    ((0 : Int) < 60 →
      List.Chain' (fun a b => a.callStart + 60 / ((60 : Int) : ℚ) ≤ b.callStart)
        ((extract_text_from_pdf ⟨20, 60, none⟩
          (fun k => ClaudeResult.ok (toString k) 0)
          (ClaudeResult.ok "s" 0) 0 51 ⟨0, none⟩).steps.drop 1)) :=
  C7_large_pdf_batch_schedule ⟨20, 60, none⟩
    (fun k => ClaudeResult.ok (toString k) 0) (ClaudeResult.ok "s" 0)
    (fun k => toString k) (fun _ => 0) 0 51 ⟨0, none⟩ rfl
    (by norm_num) (fun j => rfl)

/-- C8 counterexample: a timeout on the first batch of a large PDF is raised
by `extract_text_from_pdf_batch` as HTTP 504 naming pages 1-20, but the outer
`except Exception` in `extract_text_from_pdf` catches that `HTTPException`
and rewraps it as a generic HTTP 500 "PDF extraction failed: 504: ..." — so
the distinct 504-style error is not what the caller sees. -/
theorem C8_counterexample :
    (extract_text_from_pdf ⟨20, 60, none⟩ (fun _ => ClaudeResult.timeout "t")
        (ClaudeResult.ok "s" 0) 0 51 ⟨0, none⟩).result =
      Except.error ⟨500,
        "PDF extraction failed: 504: Claude API timeout on pages 1-20"⟩ ∧
    extract_text_from_pdf_batch (ClaudeResult.timeout "t") 0 20 =
      Except.error (BatchRaise.httpExc
        ⟨504, "Claude API timeout on pages 1-20"⟩) ∧
    (500 : Nat) ≠ 504 := by
  refine ⟨?_, rfl, by decide⟩
  norm_num [extract_text_from_pdf, batchesToProcess, pdfBatchStarts,
    runBatches, extract_text_from_pdf_batch, strOfBatchRaise, List.range']
  rfl

/-- C8 amended: each failing external batch call is classified exactly as the
spec says inside `extract_text_from_pdf_batch` (timeout → 504 naming the page
range, content-policy rejection → 400 citing the page range, other
`BadRequestError` → 400 with the message, anything else re-raised); when
batch `kfail` of a large PDF fails after `kfail - 1` successes, processing
aborts with exactly `kfail` batches attempted and the run's result is the
outer 500 wrapper "PDF extraction failed: {str(e)}" around the batch error —
not the batch's own status code; and an extraction failure reaches
`upload_document` before any embedding call or commit, so nothing partial is
persisted and the database is unchanged. -/
theorem C8_batch_failure_abort (cfg : PdfExtractConfig)
    (callResult : Nat → ClaudeResult) (singleResult : ClaudeResult)
    (texts : Nat → String) (durs : Nat → ℚ)
    (kfail sizeBytes totalPages : Nat) (st : RLState)
    (hcap : cfg.maxBatches = none)
    (hlarge : 5 * 1024 * 1024 < sizeBytes ∨ 50 < totalPages)
    (hok : ∀ j, j < kfail → callResult j = ClaudeResult.ok (texts j) (durs j))
    (hfail : (callResult kfail).isFailure = true)
    (hk1 : 1 ≤ kfail)
    (hkn : kfail ≤ (totalPages + cfg.batchSize - 1) / cfg.batchSize) :
    (∀ (a b : Nat) (msg : String),
      extract_text_from_pdf_batch (ClaudeResult.timeout msg) a b =
        Except.error (BatchRaise.httpExc ⟨504,
          "Claude API timeout on pages " ++ pagesLabel a b⟩) ∧
      extract_text_from_pdf_batch (ClaudeResult.badRequest true msg) a b =
        Except.error (BatchRaise.httpExc ⟨400,
          "PDF content blocked by content filtering policy (pages " ++
            pagesLabel a b ++ ")"⟩) ∧
      extract_text_from_pdf_batch (ClaudeResult.badRequest false msg) a b =
        Except.error (BatchRaise.httpExc ⟨400,
          "Claude API error on pages " ++ pagesLabel a b ++ ": " ++ msg⟩) ∧
      extract_text_from_pdf_batch (ClaudeResult.otherError msg) a b =
        Except.error (BatchRaise.reraised msg)) ∧
    ((extract_text_from_pdf cfg callResult singleResult sizeBytes totalPages
        st).steps.length = kfail ∧
      ∃ (e : BatchRaise) (bs : Nat),
        (pdfBatchStarts totalPages cfg.batchSize)[kfail - 1]? = some bs ∧
        extract_text_from_pdf_batch (callResult kfail) bs
          (min (bs + cfg.batchSize) totalPages) = Except.error e ∧
        (extract_text_from_pdf cfg callResult singleResult sizeBytes totalPages
          st).result = Except.error ⟨500,
            "PDF extraction failed: " ++ strOfBatchRaise e⟩) ∧
    (∀ (extractFn : List Nat → List Char → Except Unit (List Char))
        (embedFn : List (List Char) → List (List Int))
        (S O nid : Nat) (db : DbState) (fn : List Char) (content : List Nat)
        (fh : List Char) (existing : Option DocRow),
      extractFn content fn = Except.error () →
      uploadIndex extractFn embedFn S O nid db fn content fh existing =
        some ⟨Except.error UploadErr.extractionFailed, [], db,
          [PipelineEvent.extractCall]⟩) := by
  have hbtp : batchesToProcess cfg
      ((totalPages + cfg.batchSize - 1) / cfg.batchSize) =
      (totalPages + cfg.batchSize - 1) / cfg.batchSize := by
    unfold batchesToProcess
    rw [hcap]
  have hlen : (pdfBatchStarts totalPages cfg.batchSize).length =
      (totalPages + cfg.batchSize - 1) / cfg.batchSize :=
    List.length_range' _ _ _
  have habort := runBatches_abort cfg.batchesPerMinute cfg.batchSize totalPages
    ((totalPages + cfg.batchSize - 1) / cfg.batchSize) kfail callResult texts
    durs hok hfail (pdfBatchStarts totalPages cfg.batchSize) 1 st
    (by rw [hlen]; omega) hk1 (by rw [hlen]; omega)
  obtain ⟨hsteps, e, bs, hbs, hcl, hres⟩ := habort
  have hrun : extract_text_from_pdf cfg callResult singleResult sizeBytes
      totalPages st =
      ⟨(runBatches cfg.batchesPerMinute cfg.batchSize totalPages
          ((totalPages + cfg.batchSize - 1) / cfg.batchSize) callResult 1
          (pdfBatchStarts totalPages cfg.batchSize) st).1,
        Except.error ⟨500, "PDF extraction failed: " ++ strOfBatchRaise e⟩,
        (runBatches cfg.batchesPerMinute cfg.batchSize totalPages
          ((totalPages + cfg.batchSize - 1) / cfg.batchSize) callResult 1
          (pdfBatchStarts totalPages cfg.batchSize) st).2.2⟩ := by
    unfold extract_text_from_pdf
    rw [if_pos hlarge]
    simp only [hbtp, hres]
  refine ⟨fun a b msg => ⟨rfl, rfl, rfl, rfl⟩, ⟨?_, e, bs, hbs, hcl, ?_⟩, ?_⟩
  · rw [hrun]
    rw [hsteps]
    omega
  · rw [hrun]
  · intro extractFn embedFn S O nid db fn content fh existing hex
    unfold uploadIndex
    rw [hex]

/-- Witness for the amended C8: batch 2 of a 51-page PDF times out; the run
attempts exactly two batches and returns the 500 wrapper. -/
theorem C8_batch_failure_abort_witness :
    (∀ (a b : Nat) (msg : String),
      extract_text_from_pdf_batch (ClaudeResult.timeout msg) a b =
        Except.error (BatchRaise.httpExc ⟨504,
          "Claude API timeout on pages " ++ pagesLabel a b⟩) ∧
      extract_text_from_pdf_batch (ClaudeResult.badRequest true msg) a b =
        Except.error (BatchRaise.httpExc ⟨400,
          "PDF content blocked by content filtering policy (pages " ++
            pagesLabel a b ++ ")"⟩) ∧
      extract_text_from_pdf_batch (ClaudeResult.badRequest false msg) a b =
        Except.error (BatchRaise.httpExc ⟨400,
          "Claude API error on pages " ++ pagesLabel a b ++ ": " ++ msg⟩) ∧
      extract_text_from_pdf_batch (ClaudeResult.otherError msg) a b =
        Except.error (BatchRaise.reraised msg)) ∧
    ((extract_text_from_pdf ⟨20, 60, none⟩
        (fun k => if k = 2 then ClaudeResult.timeout "t"
          else ClaudeResult.ok (toString k) 0)
        (ClaudeResult.ok "s" 0) 0 51 ⟨0, none⟩).steps.length = 2 ∧
      ∃ (e : BatchRaise) (bs : Nat),
        (pdfBatchStarts 51 20)[2 - 1]? = some bs ∧
        extract_text_from_pdf_batch
          ((fun k => if k = 2 then ClaudeResult.timeout "t"
            else ClaudeResult.ok (toString k) 0) 2) bs (min (bs + 20) 51) =
          Except.error e ∧
        (extract_text_from_pdf ⟨20, 60, none⟩
          (fun k => if k = 2 then ClaudeResult.timeout "t"
            else ClaudeResult.ok (toString k) 0)
          (ClaudeResult.ok "s" 0) 0 51 ⟨0, none⟩).result = Except.error ⟨500,
            "PDF extraction failed: " ++ strOfBatchRaise e⟩) ∧
    (∀ (extractFn : List Nat → List Char → Except Unit (List Char))
        (embedFn : List (List Char) → List (List Int))
        (S O nid : Nat) (db : DbState) (fn : List Char) (content : List Nat)
        (fh : List Char) (existing : Option DocRow),
      extractFn content fn = Except.error () →
      uploadIndex extractFn embedFn S O nid db fn content fh existing =
        some ⟨Except.error UploadErr.extractionFailed, [], db,
          [PipelineEvent.extractCall]⟩) :=
  C8_batch_failure_abort ⟨20, 60, none⟩
    (fun k => if k = 2 then ClaudeResult.timeout "t"
      else ClaudeResult.ok (toString k) 0)
    (ClaudeResult.ok "s" 0) (fun k => toString k) (fun _ => 0) 2 0 51 ⟨0, none⟩
    rfl (by norm_num)
    (fun j hj => by simp [show ¬ j = 2 by omega]) rfl (by decide) (by decide)

end Knosi
